import Mathlib

/-!
Shallow embedding of the `state` package of simple-healthchecker (the
concurrent check-state engine): the store data model, its mutation API,
the sweep (`runOnce`), the snapshot, the config persistence
(`saveConfigLocked`) and the Healthchecks notification URL construction.

Modelling conventions:
* Go `time.Time` values are modelled as `Int` timestamps (the sweep takes
  the current time as an input).
* The Go map `hosts map[string]*HostStatus` is modelled as an association
  list with unique names; map-iteration nondeterminism is modelled by
  quantifying over permutations of that list where it matters.
* Disk persistence is modelled by a value `disk : Option Config` (the
  persisted document) threaded through the mutating calls, together with
  a boolean `io` input: `io = true` means the marshal/write/rename steps
  of `saveConfigLocked` succeed, `io = false` means they fail.
* Network probes are an oracle (`Probe`): functions from address/URL to
  the result the Go probe executors would return, plus the current time.
* Outgoing Healthchecks notifications are recorded as a list of
  `NotifyEvent` values instead of being performed.
-/

namespace Healthchecker

/-- CheckType from the config package: `ping` or `http`. -/
inductive CheckType where
  | ping
  | http
deriving DecidableEq, Repr

/-- Check record of the configuration document (config.Check). -/
structure ConfigCheck where
  type : CheckType
  enabled : Bool
  url : String
  expect : Int
deriving DecidableEq, Repr

/-- Host record of the configuration document (config.Host). -/
structure ConfigHost where
  name : String
  address : String
  checks : List ConfigCheck
  healthchecksPingURL : String
deriving DecidableEq, Repr

/-- The configuration document (config.Config). -/
structure Config where
  hosts : List ConfigHost
deriving DecidableEq, Repr

/-- Runtime per-check state (state.CheckStatus); the OK/message/latency/
checkedAt fields are the check's most recent Outcome. -/
structure CheckStatus where
  type : CheckType
  enabled : Bool
  ok : Bool
  message : String
  latencyMS : Int
  checkedAt : Int
  url : String
  expect : Int
deriving DecidableEq, Repr

/-- Runtime per-host state (state.HostStatus). -/
structure HostStatus where
  name : String
  address : String
  checks : List CheckStatus
  hcurl : String
deriving DecidableEq, Repr

/-- The store (state.State) minus the lock: the parsed config document it
holds, the runtime host map (as an association list keyed by name), and
the config file path. -/
structure State where
  cfg : Config
  hosts : List HostStatus
  configPath : String
deriving DecidableEq, Repr

/-- Go map read `s.hosts[name]`. -/
def lookupHost (hosts : List HostStatus) (name : String) : Option HostStatus :=
  hosts.find? (fun h => h.name = name)

/-- Go map write `s.hosts[name] = hs`: replace the entry when the key is
present, append otherwise. -/
def mapInsert (hosts : List HostStatus) (hs : HostStatus) : List HostStatus :=
  if (hosts.find? (fun h => h.name = hs.name)).isSome then
    hosts.map (fun h => if h.name = hs.name then hs else h)
  else
    hosts ++ [hs]

/-- Go `delete(s.hosts, name)`. -/
def mapDelete (hosts : List HostStatus) (name : String) : List HostStatus :=
  hosts.filter (fun h => h.name ≠ name)

/-- In-place mutation through the `*HostStatus` pointer obtained from the
map: with unique names this updates exactly the addressed entry. -/
def mapUpdate (hosts : List HostStatus) (name : String)
    (f : HostStatus → HostStatus) : List HostStatus :=
  hosts.map (fun h => if h.name = name then f h else h)

/-- Go loop `for i := range s.cfg.Hosts { if Name == name { ...; break } }`:
updates only the first matching config entry. -/
def updateFirst (l : List ConfigHost) (name : String)
    (f : ConfigHost → ConfigHost) : List ConfigHost :=
  match l with
  | [] => []
  | h :: t => if h.name = name then f h :: t else h :: updateFirst t name f

/-- Config-side host removal in DeleteHost (first match, then break). -/
def removeFirst (l : List ConfigHost) (name : String) : List ConfigHost :=
  match l with
  | [] => []
  | h :: t => if h.name = name then t else h :: removeFirst t name

/-- Pointwise update of the element at one position of a list. -/
def modifyIdx {α : Type} (l : List α) (n : Nat) (f : α → α) : List α :=
  match l, n with
  | [], _ => []
  | a :: t, 0 => f a :: t
  | a :: t, Nat.succ m => a :: modifyIdx t m f

/-- Go `filepath.Ext`: the suffix beginning at the final dot in the final
path element, empty when there is no dot. -/
def pathExt (path : String) : String :=
  let base := (path.toList.reverse.takeWhile (fun c => c ≠ '/'))
  let revExt := base.takeWhile (fun c => c ≠ '.')
  if revExt.length = base.length then ""
  else String.mk ('.' :: revExt.reverse)

/-- Config file extensions that `saveConfigLocked` actually serializes. -/
def supportedExt (path : String) : Bool :=
  pathExt path = ".yaml" ∨ pathExt path = ".yml" ∨ pathExt path = ".toml"

/-- Zero-valued Outcome: a check before its first sweep. -/
def freshStatus (t : CheckType) (enabled : Bool) (url : String)
    (expect : Int) : CheckStatus :=
  { type := t, enabled := enabled, ok := false, message := "",
    latencyMS := 0, checkedAt := 0, url := url, expect := expect }

/-- Runtime host entry built by state.New from one config host: HTTP
checks carry their URL and expected code into runtime state; ping checks
leave those fields at their zero values. -/
def initHost (h : ConfigHost) : HostStatus :=
  { name := h.name, address := h.address, hcurl := h.healthchecksPingURL,
    checks := h.checks.map (fun c =>
      if c.type = CheckType.http then freshStatus c.type c.enabled c.url c.expect
      else freshStatus c.type c.enabled "" 0) }

/-- state.New: build the runtime host map from the parsed config. -/
def State.New (cfg : Config) : State :=
  { cfg := cfg
    hosts := cfg.hosts.foldl (fun acc h => mapInsert acc (initHost h)) []
    configPath := "" }

/-- state.State.SetConfigPath (path canonicalisation elided). -/
def State.SetConfigPath (st : State) (path : String) : State :=
  { st with configPath := path }

/-- state.State.saveConfigLocked: no-op when no config path is set; else
sync each config host's Healthchecks URL from runtime state, then, for a
supported extension, marshal and write the document (modelled by the `io`
flag: `true` = the write succeeds and the disk now holds the synced
config, `false` = it fails and the disk is unchanged); unsupported
extensions silently skip the write and report success. -/
def State.saveConfigLocked (io : Bool) (st : State) (disk : Option Config) :
    Except String Unit × State × Option Config :=
  if st.configPath = "" then (Except.ok (), st, disk)
  else
    let cfg : Config := ⟨st.cfg.hosts.map (fun h =>
      match lookupHost st.hosts h.name with
      | some hs => { h with healthchecksPingURL := hs.hcurl }
      | none => h)⟩
    let st' : State := { st with cfg := cfg }
    if supportedExt st.configPath then
      if io then (Except.ok (), st', some cfg)
      else (Except.error ("persist failed"), st', disk)
    else (Except.ok (), st', disk)

/-- state.State.AddHost. -/
def State.AddHost (io : Bool) (st : State) (disk : Option Config)
    (name address hcurl : String) : Except String Unit × State × Option Config :=
  if (lookupHost st.hosts name).isSome then (Except.error ("host exists"), st, disk)
  else
    let st' : State := { st with
      hosts := st.hosts ++
        [{ name := name, address := address, hcurl := hcurl,
           checks := [freshStatus CheckType.ping true "" 0] }]
      cfg := ⟨st.cfg.hosts ++
        [{ name := name, address := address, healthchecksPingURL := hcurl,
           checks := [{ type := CheckType.ping, enabled := true, url := "", expect := 0 }] }]⟩ }
    State.saveConfigLocked io st' disk

/-- state.State.GetHost (the deep copy is implicit in value semantics). -/
def State.GetHost (st : State) (name : String) : Option HostStatus :=
  lookupHost st.hosts name

/-- state.State.UpdateHost: rename moves the map key; the config-side
entry is updated in place (first match). -/
def State.UpdateHost (io : Bool) (st : State) (disk : Option Config)
    (oldName newName address hcurl : String) :
    Except String Unit × State × Option Config :=
  match lookupHost st.hosts oldName with
  | none => (Except.error ("host not found"), st, disk)
  | some hs =>
    if newName ≠ oldName ∧ (lookupHost st.hosts newName).isSome then
      (Except.error ("host name already exists"), st, disk)
    else
      let hs' : HostStatus := { hs with name := newName, address := address, hcurl := hcurl }
      let hosts' : List HostStatus :=
        if newName ≠ oldName then mapDelete st.hosts oldName ++ [hs']
        else mapUpdate st.hosts oldName
          (fun h => { h with name := newName, address := address, hcurl := hcurl })
      let st' : State := { st with
        hosts := hosts'
        cfg := ⟨updateFirst st.cfg.hosts oldName (fun h =>
          { h with name := newName, address := address, healthchecksPingURL := hcurl })⟩ }
      State.saveConfigLocked io st' disk

/-- state.State.AddHTTPCheck. -/
def State.AddHTTPCheck (io : Bool) (st : State) (disk : Option Config)
    (hostName url : String) (expect : Int) :
    Except String Unit × State × Option Config :=
  match lookupHost st.hosts hostName with
  | none => (Except.error ("host not found"), st, disk)
  | some _ =>
    let st' : State := { st with
      hosts := mapUpdate st.hosts hostName (fun h =>
        { h with checks := h.checks ++ [freshStatus CheckType.http true url expect] })
      cfg := ⟨updateFirst st.cfg.hosts hostName (fun h =>
        { h with checks := h.checks ++
          [{ type := CheckType.http, enabled := true, url := url, expect := expect }] })⟩ }
    State.saveConfigLocked io st' disk

/-- state.State.DeleteHost. -/
def State.DeleteHost (io : Bool) (st : State) (disk : Option Config)
    (name : String) : Except String Unit × State × Option Config :=
  if (lookupHost st.hosts name).isSome then
    let st' : State := { st with
      hosts := mapDelete st.hosts name
      cfg := ⟨removeFirst st.cfg.hosts name⟩ }
    State.saveConfigLocked io st' disk
  else (Except.error ("host not found"), st, disk)

/-- state.State.AddPingCheck. -/
def State.AddPingCheck (io : Bool) (st : State) (disk : Option Config)
    (hostName : String) : Except String Unit × State × Option Config :=
  match lookupHost st.hosts hostName with
  | none => (Except.error ("host not found"), st, disk)
  | some _ =>
    let st' : State := { st with
      hosts := mapUpdate st.hosts hostName (fun h =>
        { h with checks := h.checks ++ [freshStatus CheckType.ping true "" 0] })
      cfg := ⟨updateFirst st.cfg.hosts hostName (fun h =>
        { h with checks := h.checks ++
          [{ type := CheckType.ping, enabled := true, url := "", expect := 0 }] })⟩ }
    State.saveConfigLocked io st' disk

/-- state.State.RemoveCheck: validates the index against the runtime check
sequence before mutating; the config-side removal re-checks bounds there. -/
def State.RemoveCheck (io : Bool) (st : State) (disk : Option Config)
    (hostName : String) (idx : Int) : Except String Unit × State × Option Config :=
  match lookupHost st.hosts hostName with
  | none => (Except.error ("host not found"), st, disk)
  | some hs =>
    if idx < 0 ∨ (hs.checks.length : Int) ≤ idx then (Except.error ("bad index"), st, disk)
    else
      let st' : State := { st with
        hosts := mapUpdate st.hosts hostName (fun h =>
          { h with checks := h.checks.eraseIdx idx.toNat })
        cfg := ⟨updateFirst st.cfg.hosts hostName (fun h =>
          if idx < 0 ∨ (h.checks.length : Int) ≤ idx then h
          else { h with checks := h.checks.eraseIdx idx.toNat })⟩ }
      State.saveConfigLocked io st' disk

/-- state.State.UpdateHTTPCheck: bounds check, then kind check, then the
URL/expected-code update on the runtime and config sequences. -/
def State.UpdateHTTPCheck (io : Bool) (st : State) (disk : Option Config)
    (hostName : String) (idx : Int) (url : String) (expect : Int) :
    Except String Unit × State × Option Config :=
  match lookupHost st.hosts hostName with
  | none => (Except.error ("host not found"), st, disk)
  | some hs =>
    if idx < 0 ∨ (hs.checks.length : Int) ≤ idx then (Except.error ("bad index"), st, disk)
    else
      match hs.checks.get? idx.toNat with
      | none => (Except.error ("bad index"), st, disk)
      | some c =>
        if c.type ≠ CheckType.http then (Except.error ("not http check"), st, disk)
        else
          let st' : State := { st with
            hosts := mapUpdate st.hosts hostName (fun h =>
              { h with checks := (modifyIdx h.checks idx.toNat
                  (fun ck => { ck with url := url, expect := expect })) })
            cfg := ⟨updateFirst st.cfg.hosts hostName (fun h =>
              if idx < 0 ∨ (h.checks.length : Int) ≤ idx then h
              else { h with checks := (modifyIdx h.checks idx.toNat
                  (fun ck => { ck with url := url, expect := expect })) })⟩ }
          State.saveConfigLocked io st' disk

/-- state.State.Toggle: best-effort flip of the in-memory Enabled flag;
out-of-range or unknown host is a silent no-op, and nothing else — not the
config document, not the disk — is touched (the body never calls
saveConfigLocked). -/
def State.Toggle (st : State) (hostName : String) (idx : Int)
    (enabled : Bool) : State :=
  match lookupHost st.hosts hostName with
  | none => st
  | some hs =>
    if 0 ≤ idx ∧ idx < (hs.checks.length : Int) then
      { st with hosts := mapUpdate st.hosts hostName (fun h =>
          { h with checks := (modifyIdx h.checks idx.toNat
              (fun c => { c with enabled := enabled })) }) }
    else st

/-- state.State.SetHCURL: best-effort; updates runtime and config URL and
persists, swallowing the persistence error. -/
def State.SetHCURL (io : Bool) (st : State) (disk : Option Config)
    (hostName url : String) : State × Option Config :=
  match lookupHost st.hosts hostName with
  | none => (st, disk)
  | some _ =>
    let st' : State := { st with
      hosts := mapUpdate st.hosts hostName (fun h => { h with hcurl := url })
      cfg := ⟨updateFirst st.cfg.hosts hostName (fun h =>
        { h with healthchecksPingURL := url })⟩ }
    let r := State.saveConfigLocked io st' disk
    (r.2.1, r.2.2)

/-- Position of a host name in the config document order, as Snapshot
computes it: the index of the last config entry with that name, `0` for a
name that does not occur (Go zero value of a missing map key). -/
def orderIndex (cfg : Config) (name : String) : Nat :=
  cfg.hosts.enum.foldl (fun acc p => if p.2.name = name then p.1 else acc) 0

/-- state.State.Snapshot on an explicit iteration order of the host map:
deep-copy every entry (implicit in value semantics) and stably sort by the
config-order index of the name. -/
def snapshotWith (cfg : Config) (iter : List HostStatus) : List HostStatus :=
  iter.mergeSort (fun a b => decide (orderIndex cfg a.name ≤ orderIndex cfg b.name))

/-- state.State.Snapshot at the canonical iteration order. -/
def State.Snapshot (st : State) : List HostStatus :=
  snapshotWith st.cfg st.hosts

/-- checks.PingResult, latency already in milliseconds; `err = none` with
`ok = false` is the "no reply" case. -/
structure PingResult where
  ok : Bool
  latencyMS : Int
  err : Option String
deriving DecidableEq, Repr

/-- checks.HTTPResult. -/
structure HTTPResult where
  code : Int
  latencyMS : Int
  err : Option String
deriving DecidableEq, Repr

/-- Oracle for one sweep: what checks.PingOnce returns per address, what
checks.HTTPGet returns per URL, and the current time. -/
structure Probe where
  ping : String → PingResult
  httpGet : String → HTTPResult
  now : Int

/-- One outgoing GET to the Healthchecks endpoint, recorded instead of
performed: `ok u` is notifyHealthchecksOK's request to the base URL `u`,
`fail u` is notifyHealthchecksFail's request to the URL `u` it built. -/
inductive NotifyEvent where
  | ok (url : String)
  | fail (url : String)
deriving DecidableEq, Repr

/-- URL built by notifyHealthchecksFail from the base URL. -/
def failNotifyURL (base : String) : String :=
  if base ≠ "" ∧ base.back ≠ '/' then base ++ "/fail" else base ++ "fail"

/-- URL requested by notifyHealthchecksOK: the base URL unchanged. -/
def okNotifyURL (base : String) : String := base

/-- Body of the per-check loop of state.State.runOnce: skip disabled
checks; run the probe of the check's kind; write the Outcome back; for a
ping check with a non-empty host Healthchecks URL, emit the success or
failure notification. The HTTP branch emits no notification. -/
def runCheck (pr : Probe) (address hcurl : String) (c : CheckStatus) :
    CheckStatus × List NotifyEvent :=
  if ¬ c.enabled then (c, [])
  else
    match c.type with
    | CheckType.ping =>
      let res := pr.ping address
      if res.ok then
        ({ c with
            ok := true
            checkedAt := pr.now
            message := "pong"
            latencyMS := res.latencyMS },
         if hcurl ≠ "" then [NotifyEvent.ok (okNotifyURL hcurl)] else [])
      else
        ({ c with
            ok := false
            checkedAt := pr.now
            message := (match res.err with | some e => e | none => "no reply")
            latencyMS := 0 },
         if hcurl ≠ "" then [NotifyEvent.fail (failNotifyURL hcurl)] else [])
    | CheckType.http =>
      let url := if c.url = "" then "http://" ++ address else c.url
      let res := pr.httpGet url
      match res.err with
      | some e =>
        ({ c with ok := false, checkedAt := pr.now, message := e, latencyMS := 0 }, [])
      | none =>
        let expect := if c.expect = 0 then 200 else c.expect
        ({ c with
            ok := decide (res.code = expect)
            checkedAt := pr.now
            message := "status " ++ toString res.code ++ " (expect " ++ toString expect ++ ")"
            latencyMS := res.latencyMS }, [])

/-- Inner loop of runOnce over one host's checks. -/
def runHost (pr : Probe) (hs : HostStatus) : HostStatus × List NotifyEvent :=
  let results := hs.checks.map (runCheck pr hs.address hs.hcurl)
  ({ hs with checks := results.map (fun r => r.1) },
   (results.map (fun r => r.2)).flatten)

/-- state.State.runOnce, the sweep: every check of every host is visited
under the exclusive lock; returns the updated store and the notification
requests emitted, in visit order. -/
def runOnce (pr : Probe) (st : State) : State × List NotifyEvent :=
  let results := st.hosts.map (runHost pr)
  ({ st with hosts := results.map (fun r => r.1) },
   (results.map (fun r => r.2)).flatten)

/-- One topology-changing mutation of the store API: the seven calls that
end in saveConfigLocked. -/
inductive MutOp where
  | addHost (name address hcurl : String)
  | updateHost (oldName newName address hcurl : String)
  | deleteHost (name : String)
  | addPingCheck (host : String)
  | addHTTPCheck (host url : String) (expect : Int)
  | removeCheck (host : String) (idx : Int)
  | updateHTTPCheck (host : String) (idx : Int) (url : String) (expect : Int)
deriving DecidableEq, Repr

/-- Dispatch a topology-changing mutation to its store method. -/
def applyMut (op : MutOp) (io : Bool) (st : State) (disk : Option Config) :
    Except String Unit × State × Option Config :=
  match op with
  | MutOp.addHost n a u => State.AddHost io st disk n a u
  | MutOp.updateHost o n a u => State.UpdateHost io st disk o n a u
  | MutOp.deleteHost n => State.DeleteHost io st disk n
  | MutOp.addPingCheck h => State.AddPingCheck io st disk h
  | MutOp.addHTTPCheck h u e => State.AddHTTPCheck io st disk h u e
  | MutOp.removeCheck h i => State.RemoveCheck io st disk h i
  | MutOp.updateHTTPCheck h i u e => State.UpdateHTTPCheck io st disk h i u e

/-- Whether `saveConfigLocked` will actually write this path: non-empty
with a serializable extension. -/
def persistTarget (path : String) : Prop :=
  path ≠ "" ∧ supportedExt path = true

instance (path : String) : Decidable (persistTarget path) := by
  unfold persistTarget; infer_instance

/-- Concrete host for exercising the sweep: a non-empty Healthchecks URL
and a single enabled HTTP check. -/
def c2host : HostStatus :=
  { name := "web", address := "10.0.0.1", hcurl := "https://hc-ping.com/uuid",
    checks := [{ type := CheckType.http, enabled := true, ok := false,
                 message := "", latencyMS := 0, checkedAt := 0,
                 url := "http://10.0.0.1/health", expect := 200 }] }

/-- Concrete store holding only `c2host`. -/
def c2state : State :=
  { cfg := ⟨[{ name := "web", address := "10.0.0.1",
               healthchecksPingURL := "https://hc-ping.com/uuid",
               checks := [{ type := CheckType.http, enabled := true,
                            url := "http://10.0.0.1/health", expect := 200 }] }]⟩
    hosts := [c2host]
    configPath := "" }

/-- Concrete probe oracle: every HTTP GET answers 503 and every ping
fails, at time 100. -/
def c2probe : Probe :=
  { ping := fun _ => { ok := false, latencyMS := 0, err := none }
    httpGet := fun _ => { code := 503, latencyMS := 3, err := none }
    now := 100 }

/-- Concrete check for the C3 witness: enabled HTTP check with an unset
(zero) expected code. -/
def c3check : CheckStatus :=
  { type := CheckType.http, enabled := true, ok := false,
    message := "", latencyMS := 0, checkedAt := 0,
    url := "http://api.internal/ready", expect := 0 }

/-- Concrete host for the C3 witness. -/
def c3host : HostStatus :=
  { name := "api", address := "api.internal", hcurl := "", checks := [c3check] }

/-- Concrete store holding only `c3host`. -/
def c3state : State :=
  { cfg := ⟨[{ name := "api", address := "api.internal",
               healthchecksPingURL := "",
               checks := [{ type := CheckType.http, enabled := true,
                            url := "http://api.internal/ready", expect := 0 }] }]⟩
    hosts := [c3host]
    configPath := "" }

/-- Concrete probe for the C3 witness: HTTP GETs answer 200 in 7ms. -/
def c3probe : Probe :=
  { ping := fun _ => { ok := false, latencyMS := 0, err := none }
    httpGet := fun _ => { code := 200, latencyMS := 7, err := none }
    now := 55 }

/-- One atomic step of runOnce as the lock sees it: `lock` is `mu.Lock()`
at entry, `check h c` probes and writes back check `c` of the host at
iteration position `h`, `unlock` is the deferred `mu.Unlock()`. -/
inductive SweepAction where
  | lock
  | check (h : Nat) (c : Nat)
  | unlock
deriving DecidableEq, Repr

/-- In-place update of one check of one host, as the loop body performs
it through the `*CheckStatus` pointer. -/
def stepC (pr : Probe) (c : Nat) (hs : HostStatus) : HostStatus :=
  { hs with checks := (modifyIdx hs.checks c
      (fun ck => (runCheck pr hs.address hs.hcurl ck).1)) }

/-- Effect of one sweep action on the store. -/
def applyAction (pr : Probe) (st : State) (a : SweepAction) : State :=
  match a with
  | SweepAction.lock => st
  | SweepAction.unlock => st
  | SweepAction.check h c => { st with hosts := (modifyIdx st.hosts h (stepC pr c)) }

/-- Micro-steps of the inner loop over one host's checks. -/
def checkSteps (h : Nat) (n : Nat) : List SweepAction :=
  (List.range n).map (fun c => SweepAction.check h c)

/-- Micro-steps of the outer loop over the hosts from iteration position
`h0` on. -/
def sweepStepsFrom (h0 : Nat) (l : List HostStatus) : List SweepAction :=
  match l with
  | [] => []
  | hs :: t => checkSteps h0 hs.checks.length ++ sweepStepsFrom (h0 + 1) t

/-- The full action sequence of runOnce: acquire the exclusive lock,
update every check of every host, release the lock. -/
def sweepProgram (st : State) : List SweepAction :=
  SweepAction.lock :: (sweepStepsFrom 0 st.hosts ++ [SweepAction.unlock])

/-- Store state after executing an action sequence. -/
def stateAfter (pr : Probe) (st : State) (acts : List SweepAction) : State :=
  acts.foldl (applyAction pr) st

/-- Whether the exclusive lock is held after executing an action
sequence; a Snapshot (which needs the read lock) can run exactly at the
points where this is false. -/
def writeLockHeld (acts : List SweepAction) : Bool :=
  acts.foldl (fun held a =>
    match a with
    | SweepAction.lock => true
    | SweepAction.unlock => false
    | SweepAction.check _ _ => held) false

/-- Names of the runtime host entries, in list order. -/
def hostNames (l : List HostStatus) : List String := l.map HostStatus.name

/-- Names of the config document's host entries, in document order. -/
def cfgNames (l : List ConfigHost) : List String := l.map ConfigHost.name

/-- Store sanity invariant: the config document's names are unique, the
runtime map's names are unique, and both carry the same set of names. -/
def Inv (st : State) : Prop :=
  (cfgNames st.cfg.hosts).Nodup ∧ (hostNames st.hosts).Nodup ∧
  ∀ n, n ∈ hostNames st.hosts ↔ n ∈ cfgNames st.cfg.hosts

/-- States reachable from `State.New` on a well-formed (unique-name)
configuration through the store's public operations. -/
inductive Reach : State → Prop where
  | new (cfg : Config) (hnd : (cfgNames cfg.hosts).Nodup) : Reach (State.New cfg)
  | setPath {st : State} (path : String) : Reach st → Reach (st.SetConfigPath path)
  | mutate {st : State} (op : MutOp) (io : Bool) (disk : Option Config) :
      Reach st → Reach (applyMut op io st disk).2.1
  | toggle {st : State} (h : String) (i : Int) (e : Bool) :
      Reach st → Reach (st.Toggle h i e)
  | hcurl {st : State} (io : Bool) (disk : Option Config) (h u : String) :
      Reach st → Reach (State.SetHCURL io st disk h u).1
  | sweep {st : State} (pr : Probe) : Reach st → Reach (runOnce pr st).1

/-- Concrete two-host configuration for the C9 witness (document order:
beta, then alpha). -/
def c9cfg : Config :=
  ⟨[{ name := "beta", address := "10.0.0.2", checks := [],
      healthchecksPingURL := "" },
    { name := "alpha", address := "10.0.0.1", checks := [],
      healthchecksPingURL := "" }]⟩

/-- Store freshly loaded from `c9cfg`. -/
def c9state : State := State.New c9cfg

/-- Enabled flag stored for check `i` of host `h` in a configuration
document. -/
def cfgEnabledAt (cfg : Config) (h : String) (i : Nat) : Option Bool :=
  (cfg.hosts.find? (fun x => x.name = h)).bind
    (fun x => (x.checks.get? i).map (fun c => c.enabled))

/-- Concrete store for the C10 witness: one host with one enabled ping
check, persisting to `config.yaml`. -/
def c10state : State :=
  { cfg := ⟨[{ name := "srv", address := "srv.lan", healthchecksPingURL := "",
               checks := [{ type := CheckType.ping, enabled := true,
                            url := "", expect := 0 }] }]⟩
    hosts := [{ name := "srv", address := "srv.lan", hcurl := "",
                checks := [freshStatus CheckType.ping true "" 0] }]
    configPath := "config.yaml" }

/-- Concrete ping check with a recorded Outcome, for the C8 witness. -/
def c8ping : CheckStatus :=
  { type := CheckType.ping, enabled := true, ok := true, message := "pong",
    latencyMS := 12, checkedAt := 90, url := "", expect := 0 }

/-- Concrete http check, for the C8 witness. -/
def c8http : CheckStatus :=
  { type := CheckType.http, enabled := true, ok := false, message := "",
    latencyMS := 0, checkedAt := 0, url := "http://old", expect := 200 }

/-- Concrete host with a ping check then an http check, for the C8
witness. -/
def c8host : HostStatus :=
  { name := "srv", address := "srv.lan", hcurl := "", checks := [c8ping, c8http] }

/-- Concrete store for the C8 witness. -/
def c8state : State :=
  { cfg := ⟨[]⟩, hosts := [c8host], configPath := "" }

/-! ### Helper lemmas -/

theorem save_hosts (io : Bool) (st : State) (disk : Option Config) :
    (State.saveConfigLocked io st disk).2.1.hosts = st.hosts := by
  unfold State.saveConfigLocked
  split
  · rfl
  · split
    · split <;> rfl
    · rfl

theorem save_configPath (io : Bool) (st : State) (disk : Option Config) :
    (State.saveConfigLocked io st disk).2.1.configPath = st.configPath := by
  unfold State.saveConfigLocked
  split
  · rfl
  · split
    · split <;> rfl
    · rfl

theorem save_ok (st : State) (disk : Option Config) :
    (State.saveConfigLocked true st disk).1 = Except.ok () := by
  unfold State.saveConfigLocked
  split
  · rfl
  · split
    · rfl
    · rfl

theorem lookupHost_mapUpdate (hosts : List HostStatus) (n : String)
    (f : HostStatus → HostStatus) (hpres : ∀ h, (f h).name = h.name) :
    lookupHost (mapUpdate hosts n f) n = (lookupHost hosts n).map f := by
  induction hosts with
  | nil => rfl
  | cons h t ih =>
    simp only [lookupHost, mapUpdate, List.map_cons] at *
    by_cases hn : h.name = n
    · rw [if_pos hn]
      rw [List.find?_cons_of_pos _ (by simp [hpres, hn]),
        List.find?_cons_of_pos _ (by simp [hn]), Option.map_some']
    · rw [if_neg hn]
      rw [List.find?_cons_of_neg _ (by simp [hn]),
        List.find?_cons_of_neg _ (by simp [hn])]
      exact ih

theorem modifyIdx_get?_eq {α : Type} (l : List α) (n : Nat) (f : α → α) :
    (modifyIdx l n f).get? n = (l.get? n).map f := by
  induction l generalizing n with
  | nil => simp [modifyIdx]
  | cons a t ih =>
    cases n with
    | zero => simp [modifyIdx]
    | succ m => simpa [modifyIdx] using ih m

theorem modifyIdx_get?_ne {α : Type} (l : List α) (n j : Nat) (f : α → α)
    (h : j ≠ n) : (modifyIdx l n f).get? j = l.get? j := by
  induction l generalizing n j with
  | nil => simp [modifyIdx]
  | cons a t ih =>
    cases n with
    | zero =>
      cases j with
      | zero => exact absurd rfl h
      | succ i => simp [modifyIdx]
    | succ m =>
      cases j with
      | zero => simp [modifyIdx]
      | succ i => simpa [modifyIdx] using ih m i (fun hc => h (by rw [hc]))

theorem mem_snapshotWith (cfg : Config) (hosts : List HostStatus)
    (g : HostStatus) : g ∈ snapshotWith cfg hosts ↔ g ∈ hosts :=
  (List.mergeSort_perm hosts _).mem_iff

theorem lookupHost_eq_of_mem (hosts : List HostStatus)
    (hnd : (hosts.map HostStatus.name).Nodup) (g : HostStatus)
    (hg : g ∈ hosts) : lookupHost hosts g.name = some g := by
  induction hosts with
  | nil => cases hg
  | cons h t ih =>
    rcases List.mem_cons.mp hg with hg | hg
    · subst hg
      exact List.find?_cons_of_pos _ (by simp)
    · have hne : h.name ≠ g.name := by
        intro hc
        have : g.name ∈ t.map HostStatus.name := List.mem_map_of_mem _ hg
        rw [List.map_cons] at hnd
        exact (List.nodup_cons.mp hnd).1 (hc ▸ this)
      unfold lookupHost
      rw [List.find?_cons_of_neg _ (by simp [hne])]
      exact ih (List.nodup_cons.mp (by rwa [List.map_cons] at hnd)).2 hg

theorem mapUpdate_names (hosts : List HostStatus) (n : String)
    (f : HostStatus → HostStatus) (hpres : ∀ h, (f h).name = h.name) :
    (mapUpdate hosts n f).map HostStatus.name = hosts.map HostStatus.name := by
  unfold mapUpdate
  rw [List.map_map]
  apply List.map_congr_left
  intro h _
  by_cases hn : h.name = n <;> simp [hn, hpres]


theorem save_disk_target (st : State) (disk : Option Config)
    (hp : persistTarget st.configPath) :
    (State.saveConfigLocked true st disk).2.2
      = some ⟨st.cfg.hosts.map (fun h =>
          match lookupHost st.hosts h.name with
          | some hs => { h with healthchecksPingURL := hs.hcurl }
          | none => h)⟩ := by
  unfold State.saveConfigLocked
  rw [if_neg hp.1]
  simp only [hp.2, if_true]

theorem cfgEnabledAt_map (l : List ConfigHost) (f : ConfigHost → ConfigHost)
    (hname : ∀ x, (f x).name = x.name) (hchecks : ∀ x, (f x).checks = x.checks)
    (h : String) (i : Nat) :
    cfgEnabledAt ⟨l.map f⟩ h i = cfgEnabledAt ⟨l⟩ h i := by
  induction l with
  | nil => rfl
  | cons x t ih =>
    by_cases hx : x.name = h
    · unfold cfgEnabledAt
      rw [List.map_cons,
        List.find?_cons_of_pos _ (by simp [hname, hx]),
        List.find?_cons_of_pos _ (by simp [hx])]
      simp [hchecks]
    · unfold cfgEnabledAt at *
      rw [List.map_cons,
        List.find?_cons_of_neg _ (by simp [hname, hx]),
        List.find?_cons_of_neg _ (by simp [hx])]
      exact ih

theorem cfgEnabledAt_append_ne (l : List ConfigHost) (x : ConfigHost)
    (h : String) (hne : x.name ≠ h) (i : Nat) :
    cfgEnabledAt ⟨l ++ [x]⟩ h i = cfgEnabledAt ⟨l⟩ h i := by
  unfold cfgEnabledAt
  rw [List.find?_append, List.find?_cons_of_neg _ (by simp [hne])]
  simp

theorem save_branch_claim (st0 st2 : State) (disk : Option Config)
    (p : String) (hpath : st2.configPath = p) :
    ((State.saveConfigLocked true st2 disk).1.isOk = false →
        State.saveConfigLocked true st2 disk
          = ((State.saveConfigLocked true st2 disk).1, st0, disk) ∧
        State.saveConfigLocked false st2 disk = State.saveConfigLocked true st2 disk) ∧
    ((State.saveConfigLocked true st2 disk).1.isOk = true →
        (State.saveConfigLocked false st2 disk).2.1
          = (State.saveConfigLocked true st2 disk).2.1 ∧
        (State.saveConfigLocked false st2 disk).2.2 = disk ∧
        (persistTarget p →
          (State.saveConfigLocked true st2 disk).2.2
            = some (State.saveConfigLocked true st2 disk).2.1.cfg ∧
          (State.saveConfigLocked false st2 disk).1.isOk = false) ∧
        (¬ persistTarget p →
          (State.saveConfigLocked true st2 disk).2.2 = disk ∧
          (State.saveConfigLocked false st2 disk).1.isOk = true)) := by
  subst hpath
  constructor
  · intro hbad
    rw [save_ok st2 disk] at hbad
    cases hbad
  · intro _
    unfold State.saveConfigLocked
    by_cases h0 : st2.configPath = ""
    · rw [if_pos h0, if_pos h0]
      exact ⟨rfl, rfl, fun hp => absurd h0 hp.1, fun _ => ⟨rfl, rfl⟩⟩
    · rw [if_neg h0, if_neg h0]
      by_cases hs : supportedExt st2.configPath = true
      · rw [if_pos hs, if_pos hs]
        exact ⟨rfl, rfl, fun _ => ⟨rfl, rfl⟩,
          fun hp => absurd ⟨h0, hs⟩ hp⟩
      · rw [if_neg hs, if_neg hs]
        exact ⟨rfl, rfl, fun hp => absurd hp.2 hs, fun _ => ⟨rfl, rfl⟩⟩

theorem err_branch_claim (p msg : String) (st : State) (disk : Option Config)
    (r₁ r₀ : Except String Unit × State × Option Config)
    (h1 : r₁ = (Except.error msg, st, disk)) (h0 : r₀ = r₁) :
    (r₁.1.isOk = false → r₁ = (r₁.1, st, disk) ∧ r₀ = r₁) ∧
    (r₁.1.isOk = true →
      r₀.2.1 = r₁.2.1 ∧ r₀.2.2 = disk ∧
      (persistTarget p → r₁.2.2 = some r₁.2.1.cfg ∧ r₀.1.isOk = false) ∧
      (¬ persistTarget p → r₁.2.2 = disk ∧ r₀.1.isOk = true)) := by
  subst h0
  subst h1
  exact ⟨fun _ => ⟨rfl, rfl⟩, fun hok => Bool.noConfusion hok⟩

theorem modifyIdx_id {α : Type} : ∀ (l : List α) (n : Nat),
    modifyIdx l n (fun x => x) = l
  | [], _ => rfl
  | _ :: t, 0 => rfl
  | a :: t, Nat.succ m => by
    simp only [modifyIdx]
    rw [modifyIdx_id t m]

theorem modifyIdx_comp {α : Type} : ∀ (l : List α) (n : Nat) (g g' : α → α),
    modifyIdx (modifyIdx l n g) n g' = modifyIdx l n (fun x => g' (g x))
  | [], _, _, _ => rfl
  | a :: t, 0, g, g' => rfl
  | a :: t, Nat.succ m, g, g' => by
    simp only [modifyIdx]
    rw [modifyIdx_comp t m g g']

theorem modifyIdx_append {α : Type} : ∀ (done : List α) (a : α) (t : List α)
    (f : α → α), modifyIdx (done ++ a :: t) done.length f = done ++ f a :: t
  | [], a, t, f => rfl
  | d :: ds, a, t, f => by
    simp only [List.cons_append, List.length_cons, modifyIdx]
    exact congrArg (d :: ·) (modifyIdx_append ds a t f)

theorem range'_fold_modifyIdx {α : Type} (f : α → α) : ∀ (todo done : List α),
    (List.range' done.length todo.length).foldl
      (fun cks i => modifyIdx cks i f) (done ++ todo) = done ++ todo.map f
  | [], done => by simp
  | a :: t, done => by
    rw [List.length_cons, List.range'_succ done.length t.length 1, List.foldl_cons,
      modifyIdx_append done a t f]
    have h1 : done ++ f a :: t = (done ++ [f a]) ++ t := by simp
    have h2 : done.length + 1 = (done ++ [f a]).length := by simp
    rw [h1, h2, range'_fold_modifyIdx f t (done ++ [f a])]
    simp

theorem range_fold_modifyIdx {α : Type} (f : α → α) (l : List α) :
    (List.range l.length).foldl (fun cks i => modifyIdx cks i f) l = l.map f := by
  have := range'_fold_modifyIdx f l []
  simpa [List.range_eq_range'] using this

theorem stateAfter_checkActs (pr : Probe) (h : Nat) : ∀ (idxs : List Nat) (st : State),
    stateAfter pr st (idxs.map (SweepAction.check h))
      = { st with hosts := (modifyIdx st.hosts h
          (fun hs => idxs.foldl (fun x c => stepC pr c x) hs)) }
  | [], st => by
    show st = _
    rw [show (fun (hs : HostStatus) => List.foldl (fun x c => stepC pr c x) hs []) = fun hs => hs from rfl]
    rw [modifyIdx_id]
  | i :: t, st => by
    show stateAfter pr (applyAction pr st (SweepAction.check h i)) (t.map (SweepAction.check h)) = _
    rw [stateAfter_checkActs pr h t]
    show { st with hosts := (modifyIdx (modifyIdx st.hosts h (stepC pr i)) h _) } = _
    rw [modifyIdx_comp]
    rfl

theorem fold_stepC (pr : Probe) : ∀ (idxs : List Nat) (hs : HostStatus),
    idxs.foldl (fun x c => stepC pr c x) hs
      = { hs with checks := idxs.foldl (fun cks c => modifyIdx cks c
          (fun ck => (runCheck pr hs.address hs.hcurl ck).1)) hs.checks }
  | [], hs => rfl
  | i :: t, hs => by
    show t.foldl (fun x c => stepC pr c x) (stepC pr i hs) = _
    rw [fold_stepC pr t (stepC pr i hs)]
    rfl

theorem fold_range_stepC (pr : Probe) (hs : HostStatus) :
    (List.range hs.checks.length).foldl (fun x c => stepC pr c x) hs = (runHost pr hs).1 := by
  rw [fold_stepC pr _ hs, range_fold_modifyIdx]
  show _ = { hs with checks := (hs.checks.map (runCheck pr hs.address hs.hcurl)).map (fun r => r.1) }
  rw [List.map_map]
  rfl

theorem stateAfter_sweepStepsFrom (pr : Probe) (st : State) : ∀ (todo done : List HostStatus),
    stateAfter pr { st with hosts := done ++ todo } (sweepStepsFrom done.length todo)
      = { st with hosts := done ++ todo.map (fun hs => (runHost pr hs).1) }
  | [], done => by simp [sweepStepsFrom, stateAfter]
  | hs :: t, done => by
    show stateAfter pr { st with hosts := done ++ hs :: t }
        (checkSteps done.length hs.checks.length ++ sweepStepsFrom (done.length + 1) (t)) = _
    rw [stateAfter, List.foldl_append, ← stateAfter, ← stateAfter]
    rw [show checkSteps done.length hs.checks.length
        = (List.range hs.checks.length).map (SweepAction.check done.length) from rfl]
    rw [stateAfter_checkActs pr done.length (List.range hs.checks.length)]
    show stateAfter pr { st with hosts := (modifyIdx (done ++ hs :: t) done.length _) } _ = _
    rw [modifyIdx_append done hs t, fold_range_stepC pr hs]
    have h1 : done ++ (runHost pr hs).1 :: t = (done ++ [(runHost pr hs).1]) ++ t := by simp
    have h2 : done.length + 1 = (done ++ [(runHost pr hs).1]).length := by simp
    rw [h1, h2, stateAfter_sweepStepsFrom pr st t (done ++ [(runHost pr hs).1])]
    simp

theorem stateAfter_sweep (pr : Probe) (st : State) :
    stateAfter pr st (sweepStepsFrom 0 st.hosts) = (runOnce pr st).1 := by
  have := stateAfter_sweepStepsFrom pr st st.hosts []
  simp only [List.nil_append, List.length_nil] at this
  rw [show { st with hosts := st.hosts } = st from rfl] at this
  rw [this]
  show _ = { st with hosts := (st.hosts.map (runHost pr)).map (fun r => r.1) }
  rw [List.map_map]
  rfl

theorem sweepStepsFrom_all_check : ∀ (l : List HostStatus) (k : Nat) (a : SweepAction),
    a ∈ sweepStepsFrom k l → ∃ h c, a = SweepAction.check h c
  | [], k, a, ha => absurd ha (List.not_mem_nil a)
  | hs :: t, k, a, ha => by
    rcases List.mem_append.mp ha with ha | ha
    · rcases List.mem_map.mp ha with ⟨c, _, hc⟩
      exact ⟨k, c, hc.symm⟩
    · exact sweepStepsFrom_all_check t (k + 1) a ha

theorem foldl_lock_invariant : ∀ (cs : List SweepAction) (b : Bool),
    (∀ a ∈ cs, ∃ h c, a = SweepAction.check h c) →
    cs.foldl (fun held a =>
      match a with
      | SweepAction.lock => true
      | SweepAction.unlock => false
      | SweepAction.check _ _ => held) b = b
  | [], b, _ => rfl
  | a :: t, b, hall => by
    rcases hall a (List.mem_cons_self a t) with ⟨h, c, rfl⟩
    exact foldl_lock_invariant t b (fun x hx => hall x (List.mem_cons_of_mem _ hx))

theorem find?_name_isSome (hosts : List HostStatus) (n : String) :
    ((hosts.find? (fun h => h.name = n)).isSome = true) ↔ n ∈ hostNames hosts := by
  induction hosts with
  | nil => simp [hostNames]
  | cons h t ih =>
    by_cases hn : h.name = n
    · rw [List.find?_cons_of_pos _ (by simp [hn])]
      simp [hostNames, hn]
    · rw [List.find?_cons_of_neg _ (by simp [hn])]
      simp only [hostNames, List.map_cons, List.mem_cons]
      rw [ih]
      simp [hostNames, Ne.symm hn]

theorem lookupHost_isSome (hosts : List HostStatus) (n : String) :
    ((lookupHost hosts n).isSome = true) ↔ n ∈ hostNames hosts :=
  find?_name_isSome hosts n

theorem Inv_of_names (st st' : State)
    (hc : cfgNames st'.cfg.hosts = cfgNames st.cfg.hosts)
    (hh : hostNames st'.hosts = hostNames st.hosts) (h : Inv st) : Inv st' := by
  unfold Inv at *
  rw [hc, hh]
  exact h

theorem mapInsert_fresh (hosts : List HostStatus) (hs : HostStatus)
    (h : hs.name ∉ hostNames hosts) : mapInsert hosts hs = hosts ++ [hs] := by
  unfold mapInsert
  rw [if_neg]
  rw [find?_name_isSome]
  exact h

theorem newHosts_names : ∀ (l : List ConfigHost) (acc : List HostStatus),
    (∀ h ∈ l, h.name ∉ hostNames acc) → (cfgNames l).Nodup →
    hostNames (l.foldl (fun acc h => mapInsert acc (initHost h)) acc)
      = hostNames acc ++ cfgNames l
  | [], acc, _, _ => by simp [cfgNames]
  | h :: t, acc, hfresh, hnd => by
    show hostNames (t.foldl _ (mapInsert acc (initHost h))) = _
    rw [mapInsert_fresh acc (initHost h) (hfresh h (List.mem_cons_self h t))]
    rw [newHosts_names t (acc ++ [initHost h]) ?fresh ?nodup]
    · simp [hostNames, cfgNames, initHost]
    case fresh =>
      intro x hx
      simp only [hostNames, List.map_append, List.mem_append]
      rintro (hmem | hmem)
      · exact hfresh x (List.mem_cons_of_mem h hx) hmem
      · simp only [List.map_cons, List.map_nil, List.mem_singleton] at hmem
        have : x.name ∈ cfgNames t := List.mem_map_of_mem _ hx
        rw [show (initHost h).name = h.name from rfl] at hmem
        rw [cfgNames, List.map_cons] at hnd
        exact (List.nodup_cons.mp hnd).1 (hmem ▸ this)
    case nodup =>
      rw [cfgNames, List.map_cons] at hnd
      exact (List.nodup_cons.mp hnd).2

theorem inv_new (cfg : Config) (hnd : (cfgNames cfg.hosts).Nodup) :
    Inv (State.New cfg) := by
  have hnames : hostNames (State.New cfg).hosts = cfgNames cfg.hosts := by
    have := newHosts_names cfg.hosts [] (by simp [hostNames]) hnd
    simpa [hostNames] using this
  refine ⟨hnd, ?_, ?_⟩
  · rw [show (State.New cfg).hosts = cfg.hosts.foldl (fun acc h => mapInsert acc (initHost h)) [] from rfl] at hnames ⊢
    rw [hnames]
    exact hnd
  · intro n
    rw [show (State.New cfg).cfg = cfg from rfl,
      show (State.New cfg).hosts = cfg.hosts.foldl (fun acc h => mapInsert acc (initHost h)) [] from rfl] at *
    rw [hnames]

theorem updateFirst_names_cond : ∀ (l : List ConfigHost) (n : String)
    (f : ConfigHost → ConfigHost), (∀ x, x.name = n → (f x).name = x.name) →
    cfgNames (updateFirst l n f) = cfgNames l
  | [], _, _, _ => rfl
  | x :: t, n, f, hf => by
    by_cases hx : x.name = n
    · simp only [updateFirst, if_pos hx, cfgNames, List.map_cons]
      rw [hf x hx]
    · simp only [updateFirst, if_neg hx, cfgNames, List.map_cons]
      exact congrArg (x.name :: ·) (updateFirst_names_cond t n f hf)

theorem mapUpdate_names_cond (hosts : List HostStatus) (n : String)
    (f : HostStatus → HostStatus) (hf : ∀ h, h.name = n → (f h).name = h.name) :
    hostNames (mapUpdate hosts n f) = hostNames hosts := by
  unfold mapUpdate hostNames
  rw [List.map_map]
  apply List.map_congr_left
  intro h _
  by_cases hn : h.name = n
  · simp [hn, hf h hn]
  · simp [hn]

theorem mapDelete_names : ∀ (hosts : List HostStatus) (n : String),
    hostNames (mapDelete hosts n) = (hostNames hosts).filter (fun m => m ≠ n)
  | [], _ => rfl
  | h :: t, n => by
    by_cases hn : h.name = n
    · have h1 : mapDelete (h :: t) n = mapDelete t n := by
        simp [mapDelete, List.filter_cons, hn]
      have h2 : (hostNames (h :: t)).filter (fun m => m ≠ n)
          = (hostNames t).filter (fun m => m ≠ n) := by
        simp [hostNames, List.filter_cons, hn]
      rw [h1, h2, mapDelete_names t n]
    · have h1 : mapDelete (h :: t) n = h :: mapDelete t n := by
        simp [mapDelete, List.filter_cons, hn]
      have h2 : (hostNames (h :: t)).filter (fun m => m ≠ n)
          = h.name :: (hostNames t).filter (fun m => m ≠ n) := by
        simp [hostNames, List.filter_cons, hn]
      rw [h1, h2]
      exact congrArg (h.name :: ·) (mapDelete_names t n)

theorem removeFirst_names : ∀ (l : List ConfigHost) (n : String),
    (cfgNames l).Nodup →
    cfgNames (removeFirst l n) = (cfgNames l).filter (fun m => m ≠ n)
  | [], _, _ => rfl
  | x :: t, n, hnd => by
    rw [cfgNames, List.map_cons] at hnd
    rcases List.nodup_cons.mp hnd with ⟨hxt, hndt⟩
    by_cases hx : x.name = n
    · have h1 : removeFirst (x :: t) n = t := by simp [removeFirst, hx]
      have h2 : (cfgNames (x :: t)).filter (fun m => m ≠ n)
          = (cfgNames t).filter (fun m => m ≠ n) := by
        simp [cfgNames, List.filter_cons, hx]
      rw [h1, h2]
      symm
      rw [List.filter_eq_self]
      intro a ha
      have han : a ≠ n := fun hc => hxt (by rw [hx]; exact hc ▸ ha)
      simp [han]
    · have h1 : removeFirst (x :: t) n = x :: removeFirst t n := by
        simp [removeFirst, hx]
      have h2 : (cfgNames (x :: t)).filter (fun m => m ≠ n)
          = x.name :: (cfgNames t).filter (fun m => m ≠ n) := by
        simp [cfgNames, List.filter_cons, hx]
      rw [h1, h2]
      exact congrArg (x.name :: ·) (removeFirst_names t n hndt)

theorem map_replace_id : ∀ (ms : List String) (o nn : String), o ∉ ms →
    ms.map (fun m => if m = o then nn else m) = ms
  | [], _, _, _ => rfl
  | m :: t, o, nn, h => by
    have hm : m ≠ o := fun hc => h (hc ▸ List.mem_cons_self m t)
    simp only [List.map_cons, if_neg hm]
    exact congrArg (m :: ·)
      (map_replace_id t o nn (fun hc => h (List.mem_cons_of_mem m hc)))

theorem updateFirst_rename_names : ∀ (l : List ConfigHost) (o nn : String)
    (f : ConfigHost → ConfigHost), (∀ x, (f x).name = nn) → (cfgNames l).Nodup →
    cfgNames (updateFirst l o f) = (cfgNames l).map (fun m => if m = o then nn else m)
  | [], _, _, _, _, _ => rfl
  | x :: t, o, nn, f, hf, hnd => by
    rw [cfgNames, List.map_cons] at hnd
    by_cases hx : x.name = o
    · simp only [updateFirst, if_pos hx, cfgNames, List.map_cons, if_pos hx, hf x]
      have ho : o ∉ t.map ConfigHost.name := hx ▸ (List.nodup_cons.mp hnd).1
      rw [map_replace_id (t.map ConfigHost.name) o nn ho]
    · simp only [updateFirst, if_neg hx, cfgNames, List.map_cons, if_neg hx]
      exact congrArg (x.name :: ·)
        (updateFirst_rename_names t o nn f hf (List.nodup_cons.mp hnd).2)

theorem nodup_map_replace : ∀ (ms : List String) (o nn : String), ms.Nodup →
    nn ∉ ms → (ms.map (fun m => if m = o then nn else m)).Nodup
  | [], _, _, _, _ => List.nodup_nil
  | m :: t, o, nn, hnd, hn => by
    rcases List.nodup_cons.mp hnd with ⟨hmt, hndt⟩
    rw [List.map_cons, List.nodup_cons]
    refine ⟨?_, nodup_map_replace t o nn hndt (fun hc => hn (List.mem_cons_of_mem m hc))⟩
    intro hmem
    rcases List.mem_map.mp hmem with ⟨x, hx, hrepl⟩
    by_cases hm : m = o
    · by_cases hxo : x = o
      · exact hmt (by rw [hm, ← hxo]; exact hx)
      · rw [if_pos hm, if_neg hxo] at hrepl
        exact hn (List.mem_cons_of_mem m (hrepl ▸ hx))
    · rw [if_neg hm] at hrepl
      by_cases hxo : x = o
      · rw [if_pos hxo] at hrepl
        exact hn (hrepl ▸ List.mem_cons_self m t)
      · rw [if_neg hxo] at hrepl
        exact hmt (hrepl ▸ hx)

theorem mem_map_replace (ms : List String) (o nn m' : String) (ho : o ∈ ms) :
    m' ∈ ms.map (fun m => if m = o then nn else m) ↔
      (m' ∈ ms ∧ m' ≠ o) ∨ m' = nn := by
  constructor
  · intro hmem
    rcases List.mem_map.mp hmem with ⟨x, hx, hrepl⟩
    by_cases hxo : x = o
    · rw [if_pos hxo] at hrepl
      exact Or.inr hrepl.symm
    · rw [if_neg hxo] at hrepl
      exact Or.inl ⟨hrepl ▸ hx, hrepl ▸ hxo⟩
  · rintro (⟨hmem, hne⟩ | rfl)
    · exact List.mem_map.mpr ⟨m', hmem, if_neg hne⟩
    · exact List.mem_map.mpr ⟨o, ho, if_pos rfl⟩

theorem save_state_cases (io : Bool) (st : State) (disk : Option Config) :
    (State.saveConfigLocked io st disk).2.1 = st ∨
    (State.saveConfigLocked io st disk).2.1
      = { st with cfg := ⟨st.cfg.hosts.map (fun x =>
          match lookupHost st.hosts x.name with
          | some hs => { x with healthchecksPingURL := hs.hcurl }
          | none => x)⟩ } := by
  unfold State.saveConfigLocked
  split
  · exact Or.inl rfl
  · split
    · split
      · exact Or.inr rfl
      · exact Or.inr rfl
    · exact Or.inr rfl

theorem save_inv (io : Bool) (st : State) (disk : Option Config) (h : Inv st) :
    Inv ((State.saveConfigLocked io st disk).2.1) := by
  rcases save_state_cases io st disk with hc | hc
  · rw [hc]
    exact h
  · rw [hc]
    refine Inv_of_names st _ ?_ rfl h
    show cfgNames (st.cfg.hosts.map _) = _
    unfold cfgNames
    rw [List.map_map]
    apply List.map_congr_left
    intro x _
    simp only [Function.comp_apply]
    cases lookupHost st.hosts x.name <;> rfl

theorem nodup_append_singleton (ms : List String) (n : String)
    (hnd : ms.Nodup) (hn : n ∉ ms) : (ms ++ [n]).Nodup := by
  rw [List.nodup_append]
  exact ⟨hnd, List.nodup_singleton n, by
    intro a ha hb
    rw [List.mem_singleton] at hb
    exact hn (hb ▸ ha)⟩

theorem mem_filter_ne (ms : List String) (n m : String) :
    m ∈ ms.filter (fun x => x ≠ n) ↔ m ∈ ms ∧ m ≠ n := by
  rw [List.mem_filter]
  simp

theorem inv_addHost (io : Bool) (st : State) (disk : Option Config)
    (n a u : String) (h : Inv st) :
    Inv ((State.AddHost io st disk n a u).2.1) := by
  by_cases hex : (lookupHost st.hosts n).isSome = true
  · simp only [State.AddHost, if_pos hex]
    exact h
  · simp only [State.AddHost, if_neg hex]
    apply save_inv
    have hn : n ∉ hostNames st.hosts := by
      rw [← lookupHost_isSome]
      simpa using hex
    have hnc : n ∉ cfgNames st.cfg.hosts := fun hc => hn ((h.2.2 n).mpr hc)
    have hceq : cfgNames (st.cfg.hosts ++
        [{ name := n, address := a, healthchecksPingURL := u,
           checks := [{ type := CheckType.ping, enabled := true, url := "", expect := 0 }] }])
        = cfgNames st.cfg.hosts ++ [n] := by
      simp [cfgNames]
    have hheq : hostNames (st.hosts ++
        [{ name := n, address := a, hcurl := u,
           checks := [freshStatus CheckType.ping true "" 0] }])
        = hostNames st.hosts ++ [n] := by
      simp [hostNames]
    refine ⟨?_, ?_, ?_⟩
    · show (cfgNames (st.cfg.hosts ++ _)).Nodup
      rw [hceq]
      exact nodup_append_singleton _ n h.1 hnc
    · show (hostNames (st.hosts ++ _)).Nodup
      rw [hheq]
      exact nodup_append_singleton _ n h.2.1 hn
    · intro m
      show m ∈ hostNames (st.hosts ++ _) ↔ m ∈ cfgNames (st.cfg.hosts ++ _)
      rw [hceq, hheq, List.mem_append, List.mem_append, h.2.2 m]

theorem inv_updateHost (io : Bool) (st : State) (disk : Option Config)
    (o nn a u : String) (h : Inv st) :
    Inv ((State.UpdateHost io st disk o nn a u).2.1) := by
  cases hl : lookupHost st.hosts o with
  | none =>
    simp only [State.UpdateHost, hl]
    exact h
  | some hs =>
    by_cases hcol : (nn ≠ o ∧ (lookupHost st.hosts nn).isSome = true)
    · simp only [State.UpdateHost, hl, if_pos hcol]
      exact h
    · simp only [State.UpdateHost, hl, if_neg hcol]
      apply save_inv
      have ho_mem : o ∈ hostNames st.hosts := by
        rw [← lookupHost_isSome, hl]
        rfl
      have ho_memc : o ∈ cfgNames st.cfg.hosts := (h.2.2 o).mp ho_mem
      by_cases hif : nn ≠ o
      · have hnn : nn ∉ hostNames st.hosts := by
          rw [← lookupHost_isSome]
          intro hc
          exact hcol ⟨hif, hc⟩
        have hnnc : nn ∉ cfgNames st.cfg.hosts := fun hc => hnn ((h.2.2 nn).mpr hc)
        simp only [if_pos hif]
        have hceq : cfgNames (updateFirst st.cfg.hosts o (fun x =>
            { x with name := nn, address := a, healthchecksPingURL := u }))
            = (cfgNames st.cfg.hosts).map (fun m => if m = o then nn else m) :=
          updateFirst_rename_names st.cfg.hosts o nn _ (fun x => rfl) h.1
        have hheq : hostNames (mapDelete st.hosts o ++
            [{ hs with name := nn, address := a, hcurl := u }])
            = (hostNames st.hosts).filter (fun m => m ≠ o) ++ [nn] := by
          rw [hostNames, List.map_append, ← hostNames, mapDelete_names]
          rfl
        refine ⟨?_, ?_, ?_⟩
        · show (cfgNames (updateFirst _ _ _)).Nodup
          rw [hceq]
          exact nodup_map_replace _ o nn h.1 hnnc
        · show (hostNames (mapDelete _ _ ++ _)).Nodup
          rw [hheq]
          refine nodup_append_singleton _ nn (h.2.1.filter _) ?_
          intro hc
          exact hnn ((mem_filter_ne _ _ _).mp hc).1
        · intro m
          show m ∈ hostNames (mapDelete _ _ ++ _) ↔ m ∈ cfgNames (updateFirst _ _ _)
          rw [hceq, hheq, List.mem_append, mem_filter_ne,
            mem_map_replace _ _ _ _ ho_memc, List.mem_singleton, h.2.2 m]
      · simp only [if_neg hif]
        push_neg at hif
        refine Inv_of_names st _ ?_ ?_ h
        · exact updateFirst_names_cond _ _ _ (fun x hx => by simp [hif, hx])
        · exact mapUpdate_names_cond _ _ _ (fun x hx => by simp [hif, hx])

theorem inv_deleteHost (io : Bool) (st : State) (disk : Option Config)
    (n : String) (h : Inv st) : Inv ((State.DeleteHost io st disk n).2.1) := by
  by_cases hex : (lookupHost st.hosts n).isSome = true
  · simp only [State.DeleteHost, if_pos hex]
    apply save_inv
    have hceq : cfgNames (removeFirst st.cfg.hosts n)
        = (cfgNames st.cfg.hosts).filter (fun m => m ≠ n) :=
      removeFirst_names st.cfg.hosts n h.1
    refine ⟨?_, ?_, ?_⟩
    · show (cfgNames (removeFirst _ _)).Nodup
      rw [hceq]
      exact h.1.filter _
    · show (hostNames (mapDelete _ _)).Nodup
      rw [mapDelete_names]
      exact h.2.1.filter _
    · intro m
      show m ∈ hostNames (mapDelete _ _) ↔ m ∈ cfgNames (removeFirst _ _)
      rw [hceq, mapDelete_names, mem_filter_ne, mem_filter_ne, h.2.2 m]
  · simp only [State.DeleteHost, if_neg hex]
    exact h

theorem inv_applyMut (op : MutOp) (io : Bool) (st : State) (disk : Option Config)
    (h : Inv st) : Inv ((applyMut op io st disk).2.1) := by
  cases op with
  | addHost n a u => exact inv_addHost io st disk n a u h
  | updateHost o nn a u => exact inv_updateHost io st disk o nn a u h
  | deleteHost n => exact inv_deleteHost io st disk n h
  | addPingCheck hname =>
    cases hl : lookupHost st.hosts hname with
    | none =>
      simp only [applyMut, State.AddPingCheck, hl]
      exact h
    | some hs =>
      simp only [applyMut, State.AddPingCheck, hl]
      apply save_inv
      refine Inv_of_names st _ ?_ ?_ h
      · exact updateFirst_names_cond _ _ _ (fun x _ => rfl)
      · exact mapUpdate_names_cond _ _ _ (fun x _ => rfl)
  | addHTTPCheck hname u e =>
    cases hl : lookupHost st.hosts hname with
    | none =>
      simp only [applyMut, State.AddHTTPCheck, hl]
      exact h
    | some hs =>
      simp only [applyMut, State.AddHTTPCheck, hl]
      apply save_inv
      refine Inv_of_names st _ ?_ ?_ h
      · exact updateFirst_names_cond _ _ _ (fun x _ => rfl)
      · exact mapUpdate_names_cond _ _ _ (fun x _ => rfl)
  | removeCheck hname i =>
    cases hl : lookupHost st.hosts hname with
    | none =>
      simp only [applyMut, State.RemoveCheck, hl]
      exact h
    | some hs =>
      by_cases hidx : (i < 0 ∨ (hs.checks.length : Int) ≤ i)
      · simp only [applyMut, State.RemoveCheck, hl, if_pos hidx]
        exact h
      · simp only [applyMut, State.RemoveCheck, hl, if_neg hidx]
        apply save_inv
        refine Inv_of_names st _ ?_ ?_ h
        · exact updateFirst_names_cond _ _ _ (fun x hx => by
            by_cases hb : (i < 0 ∨ ((x.checks.length : Int) ≤ i)) <;> simp [hb])
        · exact mapUpdate_names_cond _ _ _ (fun x _ => rfl)
  | updateHTTPCheck hname i u e =>
    cases hl : lookupHost st.hosts hname with
    | none =>
      simp only [applyMut, State.UpdateHTTPCheck, hl]
      exact h
    | some hs =>
      by_cases hidx : (i < 0 ∨ (hs.checks.length : Int) ≤ i)
      · simp only [applyMut, State.UpdateHTTPCheck, hl, if_pos hidx]
        exact h
      · cases hget : hs.checks.get? i.toNat with
        | none =>
          simp only [applyMut, State.UpdateHTTPCheck, hl, if_neg hidx, hget]
          exact h
        | some c =>
          by_cases hty : (c.type ≠ CheckType.http)
          · simp only [applyMut, State.UpdateHTTPCheck, hl, if_neg hidx, hget, if_pos hty]
            exact h
          · simp only [applyMut, State.UpdateHTTPCheck, hl, if_neg hidx, hget, if_neg hty]
            apply save_inv
            refine Inv_of_names st _ ?_ ?_ h
            · exact updateFirst_names_cond _ _ _ (fun x hx => by
                by_cases hb : (i < 0 ∨ ((x.checks.length : Int) ≤ i)) <;> simp [hb])
            · exact mapUpdate_names_cond _ _ _ (fun x _ => rfl)

theorem inv_toggle (st : State) (h : String) (i : Int) (e : Bool)
    (hinv : Inv st) : Inv (st.Toggle h i e) := by
  unfold State.Toggle
  split
  · exact hinv
  · split
    · refine Inv_of_names st _ rfl ?_ hinv
      exact mapUpdate_names_cond _ _ _ (fun x _ => rfl)
    · exact hinv

theorem inv_hcurl (io : Bool) (st : State) (disk : Option Config)
    (h u : String) (hinv : Inv st) :
    Inv ((State.SetHCURL io st disk h u).1) := by
  unfold State.SetHCURL
  cases hl : lookupHost st.hosts h with
  | none => exact hinv
  | some hs =>
    apply save_inv
    refine Inv_of_names st _ ?_ ?_ hinv
    · exact updateFirst_names_cond _ _ _ (fun x _ => rfl)
    · exact mapUpdate_names_cond _ _ _ (fun x _ => rfl)

theorem inv_sweep (pr : Probe) (st : State) (hinv : Inv st) :
    Inv ((runOnce pr st).1) := by
  refine Inv_of_names st _ rfl ?_ hinv
  show hostNames ((st.hosts.map (runHost pr)).map (fun r => r.1)) = _
  unfold hostNames
  rw [List.map_map, List.map_map]
  apply List.map_congr_left
  intro x _
  rfl

theorem reach_inv {st : State} (hr : Reach st) : Inv st := by
  induction hr with
  | new cfg hnd => exact inv_new cfg hnd
  | setPath path _ ih => exact Inv_of_names _ _ rfl rfl ih
  | mutate op io disk _ ih => exact inv_applyMut op io _ disk ih
  | toggle h i e _ ih => exact inv_toggle _ h i e ih
  | hcurl io disk h u _ ih => exact inv_hcurl io _ disk h u ih
  | sweep pr _ ih => exact inv_sweep pr _ ih

theorem foldl_order_not_mem : ∀ (l : List ConfigHost) (n : String) (k acc : Nat),
    n ∉ cfgNames l →
    (List.enumFrom k l).foldl (fun a p => if p.2.name = n then p.1 else a) acc = acc
  | [], _, _, _, _ => rfl
  | x :: t, n, k, acc, hmem => by
    have hx : x.name ≠ n := fun hc => hmem (hc ▸ List.mem_map_of_mem _ (List.mem_cons_self x t))
    show (List.enumFrom (k + 1) t).foldl _ (if x.name = n then k else acc) = acc
    rw [if_neg hx]
    exact foldl_order_not_mem t n (k + 1) acc
      (fun hc => hmem (List.mem_cons_of_mem _ (by simpa [cfgNames] using hc)))

theorem foldl_order_mem : ∀ (l : List ConfigHost) (n : String) (k acc : Nat),
    (cfgNames l).Nodup → n ∈ cfgNames l →
    (List.enumFrom k l).foldl (fun a p => if p.2.name = n then p.1 else a) acc
      = k + (cfgNames l).indexOf n
  | [], n, _, _, _, hmem => absurd hmem (by simp [cfgNames])
  | x :: t, n, k, acc, hnd, hmem => by
    rw [cfgNames, List.map_cons] at hnd
    rcases List.nodup_cons.mp hnd with ⟨hxt, hndt⟩
    show (List.enumFrom (k + 1) t).foldl _ (if x.name = n then k else acc)
      = k + (cfgNames (x :: t)).indexOf n
    by_cases hx : x.name = n
    · rw [if_pos hx]
      have hnt : n ∉ cfgNames t := hx ▸ hxt
      rw [foldl_order_not_mem t n (k + 1) k hnt]
      rw [show cfgNames (x :: t) = x.name :: cfgNames t from rfl, hx,
        List.indexOf_cons_self]
      omega
    · rw [if_neg hx]
      have hmt : n ∈ cfgNames t := by
        rw [show cfgNames (x :: t) = x.name :: cfgNames t from rfl] at hmem
        rcases List.mem_cons.mp hmem with hc | hc
        · exact absurd hc.symm hx
        · exact hc
      rw [foldl_order_mem t n (k + 1) acc hndt hmt]
      rw [show cfgNames (x :: t) = x.name :: cfgNames t from rfl,
        List.indexOf_cons_ne _ hx]
      omega

theorem orderIndex_eq_indexOf (cfg : Config) (n : String)
    (hnd : (cfgNames cfg.hosts).Nodup) (hmem : n ∈ cfgNames cfg.hosts) :
    orderIndex cfg n = (cfgNames cfg.hosts).indexOf n := by
  unfold orderIndex
  rw [show cfg.hosts.enum = List.enumFrom 0 cfg.hosts from rfl]
  rw [foldl_order_mem cfg.hosts n 0 0 hnd hmem]
  omega

theorem indexOf_get_of_nodup {α : Type} [DecidableEq α] (l : List α)
    (hnd : l.Nodup) (i : Fin l.length) : l.indexOf (l.get i) = i.val := by
  have hlt : l.indexOf (l.get i) < l.length :=
    List.indexOf_lt_length.mpr (List.get_mem _ _ _)
  have hget : l.get ⟨l.indexOf (l.get i), hlt⟩ = l.get i := List.indexOf_get hlt
  have hfin : (⟨l.indexOf (l.get i), hlt⟩ : Fin l.length) = i :=
    (hnd.get_inj_iff).mp hget
  exact congrArg Fin.val hfin

theorem canon_pairwise (cfg : Config) (hnd : (cfgNames cfg.hosts).Nodup) :
    (cfgNames cfg.hosts).Pairwise
      (fun a b => orderIndex cfg a < orderIndex cfg b) := by
  rw [List.pairwise_iff_get]
  intro i j hij
  rw [orderIndex_eq_indexOf cfg _ hnd (List.get_mem _ _ _),
    orderIndex_eq_indexOf cfg _ hnd (List.get_mem _ _ _)]
  rw [indexOf_get_of_nodup _ hnd i, indexOf_get_of_nodup _ hnd j]
  exact hij

theorem snapshot_pairwise_le (cfg : Config) (iter : List HostStatus) :
    (snapshotWith cfg iter).Pairwise
      (fun a b => orderIndex cfg a.name ≤ orderIndex cfg b.name) := by
  have h := @List.sorted_mergeSort HostStatus
    (fun a b => decide (orderIndex cfg a.name ≤ orderIndex cfg b.name))
    (fun a b c hab hbc => by
      simp only [decide_eq_true_eq] at *
      omega)
    (fun a b => by
      simp only [Bool.or_eq_true, decide_eq_true_eq]
      exact Nat.le_total _ _)
    iter
  exact h.imp (fun hab => by simpa using hab)

theorem snapshot_perm (cfg : Config) (iter : List HostStatus) :
    (snapshotWith cfg iter).Perm iter :=
  List.mergeSort_perm iter _

theorem name_inj_of_nodup (hosts : List HostStatus)
    (hnd : (hostNames hosts).Nodup) {a b : HostStatus} (ha : a ∈ hosts)
    (hb : b ∈ hosts) (heq : a.name = b.name) : a = b := by
  have h1 := lookupHost_eq_of_mem hosts hnd a ha
  have h2 := lookupHost_eq_of_mem hosts hnd b hb
  rw [heq, h2] at h1
  exact (Option.some_inj.mp h1).symm

theorem eq_of_hostNames_eq (hosts : List HostStatus)
    (hnd : (hostNames hosts).Nodup) : ∀ (l₁ l₂ : List HostStatus),
    (∀ x ∈ l₁, x ∈ hosts) → (∀ x ∈ l₂, x ∈ hosts) →
    hostNames l₁ = hostNames l₂ → l₁ = l₂
  | [], [], _, _, _ => rfl
  | [], y :: t₂, _, _, heq => by simp [hostNames] at heq
  | x :: t₁, [], _, _, heq => by simp [hostNames] at heq
  | x :: t₁, y :: t₂, h1, h2, heq => by
    simp only [hostNames, List.map_cons, List.cons.injEq] at heq
    have hxy : x = y := name_inj_of_nodup hosts hnd
      (h1 x (List.mem_cons_self x t₁)) (h2 y (List.mem_cons_self y t₂)) heq.1
    rw [hxy]
    exact congrArg (y :: ·) (eq_of_hostNames_eq hosts hnd t₁ t₂
      (fun z hz => h1 z (List.mem_cons_of_mem x hz))
      (fun z hz => h2 z (List.mem_cons_of_mem y hz)) heq.2)

theorem snapshot_names_canon (st : State) (hinv : Inv st)
    (l : List HostStatus) (hl : l.Perm st.hosts) :
    hostNames (snapshotWith st.cfg l) = cfgNames st.cfg.hosts := by
  have hnames_perm : (hostNames (snapshotWith st.cfg l)).Perm (hostNames st.hosts) :=
    ((snapshot_perm st.cfg l).trans hl).map _
  have hnd : (hostNames (snapshotWith st.cfg l)).Nodup :=
    hnames_perm.nodup_iff.mpr hinv.2.1
  have hmemc : ∀ m ∈ hostNames (snapshotWith st.cfg l), m ∈ cfgNames st.cfg.hosts :=
    fun m hm => (hinv.2.2 m).mp (hnames_perm.mem_iff.mp hm)
  have hle : (hostNames (snapshotWith st.cfg l)).Pairwise
      (fun a b => orderIndex st.cfg a ≤ orderIndex st.cfg b) :=
    (List.pairwise_map).mpr (snapshot_pairwise_le st.cfg l)
  have hlt : (hostNames (snapshotWith st.cfg l)).Pairwise
      (fun a b => orderIndex st.cfg a < orderIndex st.cfg b) := by
    rw [List.pairwise_iff_get] at hle ⊢
    intro i j hij
    have h1 := hle i j hij
    have hne : (hostNames (snapshotWith st.cfg l)).get i
        ≠ (hostNames (snapshotWith st.cfg l)).get j := by
      intro hc
      rw [hnd.get_inj_iff] at hc
      exact absurd (hc ▸ hij) (lt_irrefl _)
    have hmi := hmemc _ (List.get_mem _ i.val i.isLt)
    have hmj := hmemc _ (List.get_mem _ j.val j.isLt)
    have hidx : orderIndex st.cfg ((hostNames (snapshotWith st.cfg l)).get i)
        ≠ orderIndex st.cfg ((hostNames (snapshotWith st.cfg l)).get j) := by
      intro hc
      rw [orderIndex_eq_indexOf st.cfg _ hinv.1 hmi,
        orderIndex_eq_indexOf st.cfg _ hinv.1 hmj] at hc
      exact hne ((List.indexOf_inj hmi hmj).mp hc)
    omega
  have hpc : (hostNames (snapshotWith st.cfg l)).Perm (cfgNames st.cfg.hosts) := by
    refine List.perm_of_nodup_nodup_toFinset_eq hnd hinv.1 (Finset.ext fun m => ?_)
    rw [List.mem_toFinset, List.mem_toFinset]
    constructor
    · exact hmemc m
    · intro hm
      exact hnames_perm.mem_iff.mpr ((hinv.2.2 m).mpr hm)
  haveI : IsAntisymm String (fun a b => orderIndex st.cfg a < orderIndex st.cfg b) :=
    ⟨fun a b h1 h2 => absurd (h1.trans h2) (lt_irrefl _)⟩
  exact List.eq_of_perm_of_sorted hpc hlt (canon_pairwise st.cfg hinv.1)

theorem save_cfgNames (io : Bool) (st : State) (disk : Option Config) :
    cfgNames ((State.saveConfigLocked io st disk).2.1.cfg.hosts)
      = cfgNames st.cfg.hosts := by
  rcases save_state_cases io st disk with hc | hc
  · rw [hc]
  · rw [hc]
    show cfgNames (st.cfg.hosts.map _) = _
    unfold cfgNames
    rw [List.map_map]
    apply List.map_congr_left
    intro x _
    simp only [Function.comp_apply]
    cases lookupHost st.hosts x.name <;> rfl

/-! ### Theorems -/

/-- Claim C1 (counterexample): on the concrete store `c10state` (config
path `config.yaml`), AddHost of the fresh name "db" with the persistence
write failing returns an error, yet the in-memory store already holds the
new host — refuting the claim that no call returns an error with the
in-memory state already mutated. -/
theorem claim_C1_counterexample :
    (State.AddHost false c10state (some c10state.cfg) ("db") ("db.lan") ("")).1
      = Except.error ("persist failed") ∧
    (lookupHost (State.AddHost false c10state (some c10state.cfg)
        ("db") ("db.lan") ("")).2.1.hosts ("db")).isSome = true ∧
    (State.AddHost false c10state (some c10state.cfg) ("db") ("db.lan") ("")).2.2
      = some c10state.cfg := by
  refine ⟨rfl, rfl, rfl⟩

/-- Claim C1 (amended): every topology-changing mutation either fails its
structural validation and leaves the in-memory store and the persisted
document both unchanged, or applies the in-memory mutation and invokes
persistence; when the write succeeds the call returns success with the
persisted document equal to the updated store's config document (when a
persistable config path is set — with no path or an unsupported extension
the call returns success without touching the disk), and when the write
fails the call returns the error with the in-memory mutation retained,
not rolled back. Stated by comparing the run whose persistence write
succeeds (`io = true`) with the run whose write fails (`io = false`): the
resulting in-memory state never depends on the write's outcome. -/
theorem claim_C1 (op : MutOp) (st : State) (disk : Option Config) :
    ((applyMut op true st disk).1.isOk = false →
      applyMut op true st disk = ((applyMut op true st disk).1, st, disk) ∧
      applyMut op false st disk = applyMut op true st disk) ∧
    ((applyMut op true st disk).1.isOk = true →
      (applyMut op false st disk).2.1 = (applyMut op true st disk).2.1 ∧
      (applyMut op false st disk).2.2 = disk ∧
      (persistTarget st.configPath →
        (applyMut op true st disk).2.2 = some (applyMut op true st disk).2.1.cfg ∧
        (applyMut op false st disk).1.isOk = false) ∧
      (¬ persistTarget st.configPath →
        (applyMut op true st disk).2.2 = disk ∧
        (applyMut op false st disk).1.isOk = true)) := by
  cases op with
  | addHost n a u =>
    by_cases hex : (lookupHost st.hosts n).isSome = true
    · exact err_branch_claim st.configPath ("host exists") st disk _ _
        (by simp only [applyMut, State.AddHost, if_pos hex])
        (by simp only [applyMut, State.AddHost, if_pos hex])
    · simp only [applyMut, State.AddHost, if_neg hex]
      exact save_branch_claim st _ disk st.configPath rfl
  | updateHost o nn a u =>
    cases hl : lookupHost st.hosts o with
    | none =>
      exact err_branch_claim st.configPath ("host not found") st disk _ _
        (by simp only [applyMut, State.UpdateHost, hl])
        (by simp only [applyMut, State.UpdateHost, hl])
    | some hs =>
      by_cases hcol : (nn ≠ o ∧ (lookupHost st.hosts nn).isSome = true)
      · exact err_branch_claim st.configPath ("host name already exists") st disk _ _
          (by simp only [applyMut, State.UpdateHost, hl, if_pos hcol])
          (by simp only [applyMut, State.UpdateHost, hl, if_pos hcol])
      · simp only [applyMut, State.UpdateHost, hl, if_neg hcol]
        exact save_branch_claim st _ disk st.configPath rfl
  | deleteHost n =>
    by_cases hex : (lookupHost st.hosts n).isSome = true
    · simp only [applyMut, State.DeleteHost, if_pos hex]
      exact save_branch_claim st _ disk st.configPath rfl
    · exact err_branch_claim st.configPath ("host not found") st disk _ _
        (by simp only [applyMut, State.DeleteHost, if_neg hex])
        (by simp only [applyMut, State.DeleteHost, if_neg hex])
  | addPingCheck hname =>
    cases hl : lookupHost st.hosts hname with
    | none =>
      exact err_branch_claim st.configPath ("host not found") st disk _ _
        (by simp only [applyMut, State.AddPingCheck, hl])
        (by simp only [applyMut, State.AddPingCheck, hl])
    | some hs =>
      simp only [applyMut, State.AddPingCheck, hl]
      exact save_branch_claim st _ disk st.configPath rfl
  | addHTTPCheck hname u e =>
    cases hl : lookupHost st.hosts hname with
    | none =>
      exact err_branch_claim st.configPath ("host not found") st disk _ _
        (by simp only [applyMut, State.AddHTTPCheck, hl])
        (by simp only [applyMut, State.AddHTTPCheck, hl])
    | some hs =>
      simp only [applyMut, State.AddHTTPCheck, hl]
      exact save_branch_claim st _ disk st.configPath rfl
  | removeCheck hname i =>
    cases hl : lookupHost st.hosts hname with
    | none =>
      exact err_branch_claim st.configPath ("host not found") st disk _ _
        (by simp only [applyMut, State.RemoveCheck, hl])
        (by simp only [applyMut, State.RemoveCheck, hl])
    | some hs =>
      by_cases hidx : (i < 0 ∨ (hs.checks.length : Int) ≤ i)
      · exact err_branch_claim st.configPath ("bad index") st disk _ _
          (by simp only [applyMut, State.RemoveCheck, hl, if_pos hidx])
          (by simp only [applyMut, State.RemoveCheck, hl, if_pos hidx])
      · simp only [applyMut, State.RemoveCheck, hl, if_neg hidx]
        exact save_branch_claim st _ disk st.configPath rfl
  | updateHTTPCheck hname i u e =>
    cases hl : lookupHost st.hosts hname with
    | none =>
      exact err_branch_claim st.configPath ("host not found") st disk _ _
        (by simp only [applyMut, State.UpdateHTTPCheck, hl])
        (by simp only [applyMut, State.UpdateHTTPCheck, hl])
    | some hs =>
      by_cases hidx : (i < 0 ∨ (hs.checks.length : Int) ≤ i)
      · exact err_branch_claim st.configPath ("bad index") st disk _ _
          (by simp only [applyMut, State.UpdateHTTPCheck, hl, if_pos hidx])
          (by simp only [applyMut, State.UpdateHTTPCheck, hl, if_pos hidx])
      · cases hget : hs.checks.get? i.toNat with
        | none =>
          exact err_branch_claim st.configPath ("bad index") st disk _ _
            (by simp only [applyMut, State.UpdateHTTPCheck, hl, if_neg hidx, hget])
            (by simp only [applyMut, State.UpdateHTTPCheck, hl, if_neg hidx, hget])
        | some c =>
          by_cases hty : (c.type ≠ CheckType.http)
          · exact err_branch_claim st.configPath ("not http check") st disk _ _
              (by simp only [applyMut, State.UpdateHTTPCheck, hl, if_neg hidx, hget, if_pos hty])
              (by simp only [applyMut, State.UpdateHTTPCheck, hl, if_neg hidx, hget, if_pos hty])
          · simp only [applyMut, State.UpdateHTTPCheck, hl, if_neg hidx, hget, if_neg hty]
            exact save_branch_claim st _ disk st.configPath rfl

/-- Claim C1 witness: the amended theorem applied to `applyMut` of
AddHost of the fresh name "db" on the concrete store `c10state`: the
successful run persists the updated document, while the failing run
keeps the disk unchanged and the same mutated in-memory state. -/
theorem claim_C1_witness :
    (applyMut (MutOp.addHost "db" "db.lan" "") false c10state (some c10state.cfg)).2.1
      = (applyMut (MutOp.addHost "db" "db.lan" "") true c10state (some c10state.cfg)).2.1 ∧
    (applyMut (MutOp.addHost "db" "db.lan" "") false c10state (some c10state.cfg)).2.2
      = some c10state.cfg ∧
    (applyMut (MutOp.addHost "db" "db.lan" "") true c10state (some c10state.cfg)).2.2
      = some (applyMut (MutOp.addHost "db" "db.lan" "") true c10state (some c10state.cfg)).2.1.cfg ∧
    (applyMut (MutOp.addHost "db" "db.lan" "") false c10state (some c10state.cfg)).1.isOk
      = false :=
  let h := (claim_C1 (MutOp.addHost "db" "db.lan" "") c10state (some c10state.cfg)).2 rfl
  ⟨h.1, h.2.1, (h.2.2.1 (by constructor <;> decide)).1, (h.2.2.1 (by constructor <;> decide)).2⟩

/-- Claim C2 (code bug): during a sweep, an enabled HTTP check on a host
with a non-empty notify URL is executed and records a failing Outcome,
yet the sweep emits no notification at all — the HTTP branch of runOnce
never invokes the Notification Dispatcher, although the repository's own
README states that the service calls the Healthchecks endpoints based on
check outcomes and that failures will be reported whenever the ping URL
is set. -/
theorem claim_C2 :
    c2host.hcurl ≠ "" ∧
    (c2host.checks.map (fun c => c.enabled)) = [true] ∧
    ((runOnce c2probe c2state).1.hosts.map (fun h => h.checks.map (fun c => c.ok)))
      = [[false]] ∧
    (runOnce c2probe c2state).2 = [] := by
  refine ⟨by decide, rfl, rfl, rfl⟩

/-- Claim C3: in a sweep, an enabled HTTP check's recorded Outcome has
`ok = true` iff the response code equals the expected code, where an
unset (zero) expected code defaults to 200; the message contains both the
actual and the expected code; a network error is recorded as `ok = false`
with the underlying error text as message and zero latency. The theorem
holds for every check position of every host, whatever the probe returns
for the other checks, so one failing probe never aborts the rest of the
sweep. -/
theorem claim_C3 (pr : Probe) (st : State) (i j : Nat) (hs : HostStatus)
    (c : CheckStatus) (hi : st.hosts.get? i = some hs)
    (hj : hs.checks.get? j = some c) (hen : c.enabled = true)
    (hty : c.type = CheckType.http) :
    ∃ hs' c', (runOnce pr st).1.hosts.get? i = some hs' ∧
      hs'.checks.get? j = some c' ∧
      (let url := if c.url = "" then "http://" ++ hs.address else c.url
       let res := pr.httpGet url
       match res.err with
       | some e => c'.ok = false ∧ c'.message = e ∧ c'.latencyMS = 0
       | none =>
         let expect := if c.expect = 0 then 200 else c.expect
         (c'.ok = true ↔ res.code = expect) ∧
         c'.latencyMS = res.latencyMS ∧
         ∃ s₁ s₂ s₃, c'.message = s₁ ++ toString res.code ++ s₂ ++ toString expect ++ s₃) := by
  have hhosts : (runOnce pr st).1.hosts = st.hosts.map (fun h => (runHost pr h).1) := by
    simp [runOnce, List.map_map, Function.comp]
  refine ⟨(runHost pr hs).1, (runCheck pr hs.address hs.hcurl c).1, ?_, ?_, ?_⟩
  · rw [hhosts, List.get?_map, hi]; rfl
  · show ((runHost pr hs).1).checks.get? j = _
    have : ((runHost pr hs).1).checks
        = hs.checks.map (fun ck => (runCheck pr hs.address hs.hcurl ck).1) := by
      simp [runHost, List.map_map, Function.comp]
    rw [this, List.get?_map, hj]; rfl
  · simp only
    have hne : ¬ (¬ c.enabled = true) := by simp [hen]
    cases herr : (pr.httpGet (if c.url = "" then "http://" ++ hs.address else c.url)).err with
    | some e =>
      simp [runCheck, hen, hty, herr]
    | none =>
      refine ⟨?_, ?_, "status ", " (expect ", ")", ?_⟩
      · simp [runCheck, hen, hty, herr]
      · simp [runCheck, hen, hty, herr]
      · simp [runCheck, hen, hty, herr]

/-- Claim C3 witness: the theorem applied to the concrete store `c3state`
and probe `c3probe`: status 200 against the defaulted expectation 200
yields a success Outcome whose message names both codes. -/
theorem claim_C3_witness :
    ∃ hs' c', (runOnce c3probe c3state).1.hosts.get? 0 = some hs' ∧
      hs'.checks.get? 0 = some c' ∧
      (let url := if c3check.url = "" then "http://" ++ c3host.address else c3check.url
       let res := c3probe.httpGet url
       match res.err with
       | some e => c'.ok = false ∧ c'.message = e ∧ c'.latencyMS = 0
       | none =>
         let expect := if c3check.expect = 0 then 200 else c3check.expect
         (c'.ok = true ↔ res.code = expect) ∧
         c'.latencyMS = res.latencyMS ∧
         ∃ s₁ s₂ s₃, c'.message = s₁ ++ toString res.code ++ s₂ ++ toString expect ++ s₃) :=
  claim_C3 c3probe c3state 0 0 c3host c3check rfl rfl rfl rfl

/-- Claim C7: for a host present in the store, RemoveCheck with a
negative index or an index at or beyond the current check count fails
with the IndexOutOfRange error ("bad index") and leaves store and disk
fully unchanged; with a valid index it removes exactly that check,
keeping the checks before it and shifting the ones after it down by one
in their original order. -/
theorem claim_C7 (io : Bool) (st : State) (disk : Option Config)
    (hostName : String) (idx : Int) (hs : HostStatus)
    (hfound : lookupHost st.hosts hostName = some hs) :
    ((idx < 0 ∨ (hs.checks.length : Int) ≤ idx) →
      State.RemoveCheck io st disk hostName idx
        = (Except.error ("bad index"), st, disk)) ∧
    (0 ≤ idx → idx < (hs.checks.length : Int) →
      lookupHost (State.RemoveCheck io st disk hostName idx).2.1.hosts hostName
        = some { hs with checks :=
            hs.checks.take idx.toNat ++ hs.checks.drop (idx.toNat + 1) }) := by
  constructor
  · intro hbad
    unfold State.RemoveCheck
    rw [hfound]
    simp only [if_pos hbad]
  · intro h0 hlt
    have hne : ¬ (idx < 0 ∨ (hs.checks.length : Int) ≤ idx) := by
      push_neg
      exact ⟨by omega, by omega⟩
    unfold State.RemoveCheck
    rw [hfound]
    simp only [if_neg hne]
    rw [save_hosts]
    rw [lookupHost_mapUpdate st.hosts hostName
        (fun h => { h with checks := h.checks.eraseIdx idx.toNat }) (fun h => rfl),
      hfound, Option.map_some']
    rw [List.eraseIdx_eq_take_drop_succ]

/-- Claim C7 witness: on a concrete host with two checks, index 5 fails
with "bad index" leaving everything unchanged, and index 0 removes
exactly the first check. -/
theorem claim_C7_witness :
    (State.RemoveCheck true
        { cfg := ⟨[]⟩, hosts := [c3host], configPath := "" } none ("api") 5
      = (Except.error ("bad index"),
         { cfg := ⟨[]⟩, hosts := [c3host], configPath := "" }, none)) ∧
    (lookupHost (State.RemoveCheck true
        { cfg := ⟨[]⟩, hosts := [c3host], configPath := "" } none ("api") 0).2.1.hosts ("api")
      = some { c3host with checks := [c3check].take 0 ++ [c3check].drop 1 }) :=
  ⟨(claim_C7 true { cfg := ⟨[]⟩, hosts := [c3host], configPath := "" } none
      ("api") 5 c3host rfl).1 (by decide),
   (claim_C7 true { cfg := ⟨[]⟩, hosts := [c3host], configPath := "" } none
      ("api") 0 c3host rfl).2 (by decide) (by decide)⟩

/-- Claim C5: runOnce holds the exclusive lock from its first action to
its last, so at every point of the sweep's action sequence at which the
write lock is free — the only points where a Snapshot (which needs the
read lock) can be interleaved — the store is either exactly the
pre-sweep state or exactly the post-sweep state, and the Snapshot taken
there is the pre-sweep or the post-sweep snapshot; no partially-updated
host is ever observable. -/
theorem claim_C5 (pr : Probe) (st : State) (k : Nat)
    (hk : k ≤ (sweepProgram st).length)
    (hfree : writeLockHeld ((sweepProgram st).take k) = false) :
    (stateAfter pr st ((sweepProgram st).take k) = st ∧
      (stateAfter pr st ((sweepProgram st).take k)).Snapshot = st.Snapshot) ∨
    (stateAfter pr st ((sweepProgram st).take k) = (runOnce pr st).1 ∧
      (stateAfter pr st ((sweepProgram st).take k)).Snapshot
        = (runOnce pr st).1.Snapshot) := by
  cases k with
  | zero =>
    left
    exact ⟨rfl, rfl⟩
  | succ j =>
    have hrest : (sweepProgram st).take (j + 1)
        = SweepAction.lock :: (sweepStepsFrom 0 st.hosts ++ [SweepAction.unlock]).take j := by
      rfl
    have hlen : (sweepProgram st).length = (sweepStepsFrom 0 st.hosts).length + 2 := by
      simp [sweepProgram]
    by_cases hj : j ≤ (sweepStepsFrom 0 st.hosts).length
    · exfalso
      have htake : (sweepStepsFrom 0 st.hosts ++ [SweepAction.unlock]).take j
          = (sweepStepsFrom 0 st.hosts).take j := List.take_append_of_le_length hj
      have hall : ∀ a ∈ (sweepStepsFrom 0 st.hosts).take j, ∃ h c, a = SweepAction.check h c :=
        fun a ha => sweepStepsFrom_all_check st.hosts 0 a (List.mem_of_mem_take ha)
      have : writeLockHeld ((sweepProgram st).take (j + 1)) = true := by
        rw [hrest, htake]
        exact foldl_lock_invariant _ true hall
      rw [this] at hfree
      cases hfree
    · right
      have hj' : j = (sweepStepsFrom 0 st.hosts).length + 1 := by omega
      have htake : (sweepStepsFrom 0 st.hosts ++ [SweepAction.unlock]).take j
          = sweepStepsFrom 0 st.hosts ++ [SweepAction.unlock] := by
        apply List.take_of_length_le
        simp [hj']
      have hfull : stateAfter pr st ((sweepProgram st).take (j + 1)) = (runOnce pr st).1 := by
        rw [hrest, htake]
        show stateAfter pr (applyAction pr st SweepAction.lock)
          (sweepStepsFrom 0 st.hosts ++ [SweepAction.unlock]) = _
        rw [show applyAction pr st SweepAction.lock = st from rfl]
        rw [stateAfter, List.foldl_append, ← stateAfter, ← stateAfter, stateAfter_sweep]
        rfl
      exact ⟨hfull, by rw [hfull]⟩

/-- Claim C5 witness: the theorem applied to the concrete store
`c3state` and probe `c3probe` at the sweep's final position (the
program's full length, where the lock has been released): Snapshot there
is the post-sweep snapshot. -/
theorem claim_C5_witness :
    (stateAfter c3probe c3state ((sweepProgram c3state).take 3) = c3state ∧
      (stateAfter c3probe c3state ((sweepProgram c3state).take 3)).Snapshot
        = c3state.Snapshot) ∨
    (stateAfter c3probe c3state ((sweepProgram c3state).take 3) = (runOnce c3probe c3state).1 ∧
      (stateAfter c3probe c3state ((sweepProgram c3state).take 3)).Snapshot
        = (runOnce c3probe c3state).1.Snapshot) :=
  claim_C5 c3probe c3state 3 (by decide) (by decide)

/-- Claim C6: AddHost with an already-present name (case-sensitive string
equality) fails with the AlreadyExists error ("host exists") and leaves
the store and the persisted document completely unchanged; with a fresh
name (and the persistence write succeeding) it returns success, the new
host is inserted carrying exactly one enabled ping check with a
zero-valued Outcome, and every other name still resolves to the host it
resolved to before. -/
theorem claim_C6 (io : Bool) (st : State) (disk : Option Config)
    (name address hcurl : String) :
    ((lookupHost st.hosts name).isSome →
      State.AddHost io st disk name address hcurl
        = (Except.error ("host exists"), st, disk)) ∧
    (lookupHost st.hosts name = none → io = true →
      (State.AddHost io st disk name address hcurl).1 = Except.ok () ∧
      lookupHost (State.AddHost io st disk name address hcurl).2.1.hosts name
        = some { name := name, address := address, hcurl := hcurl,
                 checks := [freshStatus CheckType.ping true "" 0] } ∧
      ∀ n, n ≠ name →
        lookupHost (State.AddHost io st disk name address hcurl).2.1.hosts n
          = lookupHost st.hosts n) := by
  constructor
  · intro hex
    unfold State.AddHost
    rw [if_pos hex]
  · intro hfresh hio
    subst hio
    have hnot : ¬ (lookupHost st.hosts name).isSome = true := by
      rw [hfresh]; simp
    refine ⟨?_, ?_, ?_⟩
    · unfold State.AddHost
      rw [if_neg hnot]
      exact save_ok _ _
    · unfold State.AddHost
      rw [if_neg hnot]
      rw [save_hosts]
      show lookupHost (st.hosts ++ [_]) name = _
      unfold lookupHost at *
      rw [List.find?_append, hfresh, Option.none_or,
        List.find?_cons_of_pos _ (by simp)]
    · intro n hn
      unfold State.AddHost
      rw [if_neg hnot]
      rw [save_hosts]
      show lookupHost (st.hosts ++ [_]) n = _
      unfold lookupHost
      rw [List.find?_append, List.find?_cons_of_neg _ (by simp [Ne.symm hn])]
      simp

/-- Claim C6 witness: adding the existing name "api" fails with "host
exists" and changes nothing; adding "API" — same letters, different case —
succeeds and inserts a host with exactly one enabled ping check. -/
theorem claim_C6_witness :
    (State.AddHost true { cfg := ⟨[]⟩, hosts := [c3host], configPath := "" }
        none ("api") ("10.9.9.9") ("")
      = (Except.error ("host exists"),
         { cfg := ⟨[]⟩, hosts := [c3host], configPath := "" }, none)) ∧
    (State.AddHost true { cfg := ⟨[]⟩, hosts := [c3host], configPath := "" }
        none ("API") ("10.9.9.9") ("")).1 = Except.ok () ∧
    lookupHost (State.AddHost true { cfg := ⟨[]⟩, hosts := [c3host], configPath := "" }
        none ("API") ("10.9.9.9") ("")).2.1.hosts ("API")
      = some { name := "API", address := "10.9.9.9", hcurl := "",
               checks := [freshStatus CheckType.ping true "" 0] } :=
  ⟨(claim_C6 true { cfg := ⟨[]⟩, hosts := [c3host], configPath := "" }
      none ("api") ("10.9.9.9") ("")).1 (by decide),
   ((claim_C6 true { cfg := ⟨[]⟩, hosts := [c3host], configPath := "" }
      none ("API") ("10.9.9.9") ("")).2 (by decide) rfl).1,
   ((claim_C6 true { cfg := ⟨[]⟩, hosts := [c3host], configPath := "" }
      none ("API") ("10.9.9.9") ("")).2 (by decide) rfl).2.1⟩

/-- Claim C8: UpdateHTTPCheck on a ping check (valid index) fails with
the WrongKind error ("not http check") and mutates nothing; on an http
check it succeeds and a subsequent Snapshot shows that host with exactly
that check's URL and expected code replaced, while every other check —
including its whole recorded Outcome — is unchanged, and the shown host
is the unique Snapshot entry of that name. -/
theorem claim_C8 (io : Bool) (st : State) (disk : Option Config)
    (host : String) (idx : Int) (url : String) (expect : Int)
    (hs : HostStatus) (c : CheckStatus)
    (hnd : (st.hosts.map HostStatus.name).Nodup)
    (hfound : lookupHost st.hosts host = some hs)
    (h0 : 0 ≤ idx) (hlt : idx < (hs.checks.length : Int))
    (hc : hs.checks.get? idx.toNat = some c) :
    (c.type = CheckType.ping →
      State.UpdateHTTPCheck io st disk host idx url expect
        = (Except.error ("not http check"), st, disk)) ∧
    (c.type = CheckType.http →
      lookupHost (State.UpdateHTTPCheck io st disk host idx url expect).2.1.hosts host
        = some { hs with checks := (modifyIdx hs.checks idx.toNat
            (fun ck => { ck with url := url, expect := expect })) } ∧
      { hs with checks := (modifyIdx hs.checks idx.toNat
            (fun ck => { ck with url := url, expect := expect })) }
        ∈ (State.UpdateHTTPCheck io st disk host idx url expect).2.1.Snapshot ∧
      (modifyIdx hs.checks idx.toNat
          (fun ck => { ck with url := url, expect := expect })).get? idx.toNat
        = some { c with url := url, expect := expect } ∧
      (∀ j, j ≠ idx.toNat →
        (modifyIdx hs.checks idx.toNat
            (fun ck => { ck with url := url, expect := expect })).get? j
          = hs.checks.get? j) ∧
      (∀ g ∈ (State.UpdateHTTPCheck io st disk host idx url expect).2.1.Snapshot,
        g.name = host →
          g = { hs with checks := (modifyIdx hs.checks idx.toNat
              (fun ck => { ck with url := url, expect := expect })) })) := by
  have hne : ¬ (idx < 0 ∨ (hs.checks.length : Int) ≤ idx) := by
    push_neg
    exact ⟨by omega, by omega⟩
  constructor
  · intro hty
    unfold State.UpdateHTTPCheck
    rw [hfound]
    simp only [if_neg hne, hc, hty]
    rfl
  · intro hty
    have hresult : State.UpdateHTTPCheck io st disk host idx url expect
        = State.saveConfigLocked io { st with
            hosts := mapUpdate st.hosts host (fun h =>
              { h with checks := (modifyIdx h.checks idx.toNat
                  (fun ck => { ck with url := url, expect := expect })) })
            cfg := ⟨updateFirst st.cfg.hosts host (fun h =>
              if idx < 0 ∨ (h.checks.length : Int) ≤ idx then h
              else { h with checks := (modifyIdx h.checks idx.toNat
                  (fun ck => { ck with url := url, expect := expect })) })⟩ } disk := by
      unfold State.UpdateHTTPCheck
      rw [hfound]
      simp only [if_neg hne, hc, hty]
      rfl
    have hhosts : (State.UpdateHTTPCheck io st disk host idx url expect).2.1.hosts
        = mapUpdate st.hosts host (fun h =>
            { h with checks := (modifyIdx h.checks idx.toNat
                (fun ck => { ck with url := url, expect := expect })) }) := by
      rw [hresult, save_hosts]
    have hlook : lookupHost (State.UpdateHTTPCheck io st disk host idx url expect).2.1.hosts host
        = some { hs with checks := (modifyIdx hs.checks idx.toNat
            (fun ck => { ck with url := url, expect := expect })) } := by
      rw [hhosts, lookupHost_mapUpdate st.hosts host
        (fun h => { h with checks := (modifyIdx h.checks idx.toNat
            (fun ck => { ck with url := url, expect := expect })) }) (fun h => rfl),
        hfound, Option.map_some']
    have hnd' : ((State.UpdateHTTPCheck io st disk host idx url expect).2.1.hosts.map
        HostStatus.name).Nodup := by
      rw [hhosts, mapUpdate_names st.hosts host
        (fun h => { h with checks := (modifyIdx h.checks idx.toNat
            (fun ck => { ck with url := url, expect := expect })) }) (fun h => rfl)]
      exact hnd
    have hsname : hs.name = host := by
      have := List.find?_some hfound
      simpa using this
    have hsmem : hs ∈ st.hosts := List.mem_of_find?_eq_some hfound
    have hmem : { hs with checks := (modifyIdx hs.checks idx.toNat
          (fun ck => { ck with url := url, expect := expect })) }
        ∈ (State.UpdateHTTPCheck io st disk host idx url expect).2.1.Snapshot := by
      rw [State.Snapshot, mem_snapshotWith, hhosts]
      have : { hs with checks := (modifyIdx hs.checks idx.toNat
            (fun ck => { ck with url := url, expect := expect })) }
          = (fun h => if h.name = host then
              { h with checks := (modifyIdx h.checks idx.toNat
                  (fun ck => { ck with url := url, expect := expect })) } else h) hs := by
        simp [hsname]
      rw [this]
      exact List.mem_map_of_mem _ hsmem
    refine ⟨hlook, hmem, ?_, ?_, ?_⟩
    · rw [modifyIdx_get?_eq, hc, Option.map_some']
    · intro j hj
      exact modifyIdx_get?_ne _ _ _ _ hj
    · intro g hg hgname
      have hgmem : g ∈ (State.UpdateHTTPCheck io st disk host idx url expect).2.1.hosts := by
        rw [State.Snapshot, mem_snapshotWith] at hg
        exact hg
      have := lookupHost_eq_of_mem _ hnd' g hgmem
      rw [hgname, hlook] at this
      exact (Option.some_inj.mp this).symm

/-- Claim C8 witness: on the concrete store `c8state`, updating check 1
(the http check) succeeds, the snapshot host carries the new URL and
expected code 204 at index 1 with the ping check's Outcome at index 0
untouched, and updating check 0 (the ping check) fails with "not http
check" changing nothing. -/
theorem claim_C8_witness :
    lookupHost (State.UpdateHTTPCheck true c8state none ("srv") 1 ("https://x") 204).2.1.hosts ("srv")
      = some { c8host with checks := (modifyIdx c8host.checks 1
          (fun ck => { ck with url := "https://x", expect := 204 })) } ∧
    (modifyIdx c8host.checks 1
        (fun ck => { ck with url := "https://x", expect := 204 })).get? 1
      = some { c8http with url := "https://x", expect := 204 } ∧
    (modifyIdx c8host.checks 1
        (fun ck => { ck with url := "https://x", expect := 204 })).get? 0
      = c8host.checks.get? 0 ∧
    State.UpdateHTTPCheck true c8state none ("srv") 0 ("https://x") 204
      = (Except.error ("not http check"), c8state, none) :=
  ⟨((claim_C8 true c8state none ("srv") 1 ("https://x") 204 c8host c8http
      (by decide) rfl (by decide) (by decide) rfl).2 rfl).1,
   ((claim_C8 true c8state none ("srv") 1 ("https://x") 204 c8host c8http
      (by decide) rfl (by decide) (by decide) rfl).2 rfl).2.2.1,
   ((claim_C8 true c8state none ("srv") 1 ("https://x") 204 c8host c8http
      (by decide) rfl (by decide) (by decide) rfl).2 rfl).2.2.2.1 0 (by decide),
   (claim_C8 true c8state none ("srv") 0 ("https://x") 204 c8host c8ping
      (by decide) rfl (by decide) (by decide) rfl).1 rfl⟩

/-- Claim C9: in every reachable store state, Snapshot lists the hosts in
the configuration document's order: the result is the same for every
iteration order of the internal map (every permutation of the host list),
its name sequence equals the config document's name sequence (the order
hosts were first loaded), and AddHost appends the new host at the end of
the document, so document order is first-loaded/first-added order; the
order is recomputed from the config document at snapshot time. -/
theorem claim_C9 (st : State) (hr : Reach st) (iter : List HostStatus)
    (hperm : iter.Perm st.hosts) :
    snapshotWith st.cfg iter = st.Snapshot ∧
    hostNames st.Snapshot = cfgNames st.cfg.hosts ∧
    (∀ (io : Bool) (disk : Option Config) (n a u : String),
      lookupHost st.hosts n = none →
      cfgNames (State.AddHost io st disk n a u).2.1.cfg.hosts
        = cfgNames st.cfg.hosts ++ [n]) := by
  have hinv := reach_inv hr
  have h1 : snapshotWith st.cfg iter = st.Snapshot := by
    show _ = snapshotWith st.cfg st.hosts
    apply eq_of_hostNames_eq st.hosts hinv.2.1
    · intro x hx
      exact hperm.mem_iff.mp ((snapshot_perm st.cfg iter).mem_iff.mp hx)
    · intro x hx
      exact (snapshot_perm st.cfg st.hosts).mem_iff.mp hx
    · rw [snapshot_names_canon st hinv iter hperm,
        snapshot_names_canon st hinv st.hosts (List.Perm.refl _)]
  refine ⟨h1, snapshot_names_canon st hinv st.hosts (List.Perm.refl _), ?_⟩
  intro io disk n a u hfresh
  have hnot : ¬ (lookupHost st.hosts n).isSome = true := by
    rw [hfresh]
    simp
  unfold State.AddHost
  rw [if_neg hnot]
  rw [save_cfgNames]
  simp [cfgNames]

/-- Claim C9 witness: on the store loaded from the two-host config
`c9cfg` (document order beta, alpha), snapshotting the reversed internal
list gives the same result as the canonical order, the snapshot's names
are exactly the document's names in document order, and adding "gamma"
appends it at the end of the document. -/
theorem claim_C9_witness :
    snapshotWith c9state.cfg c9state.hosts.reverse = c9state.Snapshot ∧
    hostNames c9state.Snapshot = cfgNames c9state.cfg.hosts ∧
    cfgNames (State.AddHost true c9state none ("gamma") ("10.0.0.3") ("")).2.1.cfg.hosts
      = cfgNames c9state.cfg.hosts ++ ["gamma"] :=
  ⟨(claim_C9 c9state (Reach.new c9cfg (by decide)) c9state.hosts.reverse
      (List.reverse_perm c9state.hosts)).1,
   (claim_C9 c9state (Reach.new c9cfg (by decide)) c9state.hosts.reverse
      (List.reverse_perm c9state.hosts)).2.1,
   (claim_C9 c9state (Reach.new c9cfg (by decide)) c9state.hosts.reverse
      (List.reverse_perm c9state.hosts)).2.2 true none ("gamma") ("10.0.0.3") ("") rfl⟩

/-- Claim C10: Toggle changes only the in-memory Enabled flag of the
addressed check — the configuration document held by the store, the
config path, every host's identity fields and every other check are
untouched, and Toggle performs no persistence (its body never calls
saveConfigLocked, which is why its model needs no disk input); a later
persisting mutation (here AddHost of an unrelated fresh name) writes the
configuration document's pre-toggle enabled flag to disk. -/
theorem claim_C10 (st : State) (h : String) (i : Int) (e : Bool) :
    (st.Toggle h i e).cfg = st.cfg ∧
    (st.Toggle h i e).configPath = st.configPath ∧
    (∀ k hx, st.hosts.get? k = some hx →
      ∃ hx', (st.Toggle h i e).hosts.get? k = some hx' ∧
        hx'.name = hx.name ∧ hx'.address = hx.address ∧ hx'.hcurl = hx.hcurl ∧
        (∀ j, (hx.name ≠ h ∨ j ≠ i.toNat) → hx'.checks.get? j = hx.checks.get? j) ∧
        (∀ j, (hx'.checks.get? j).map (fun c => { c with enabled := false })
            = (hx.checks.get? j).map (fun c => { c with enabled := false }))) ∧
    (∀ (n a u : String) (disk : Option Config), n ≠ h →
      lookupHost (st.Toggle h i e).hosts n = none →
      persistTarget st.configPath →
      ∃ doc, (State.AddHost true (st.Toggle h i e) disk n a u).2.2 = some doc ∧
        cfgEnabledAt doc h i.toNat = cfgEnabledAt st.cfg h i.toNat) := by
  have hcfg : (st.Toggle h i e).cfg = st.cfg := by
    unfold State.Toggle
    split
    · rfl
    · split <;> rfl
  have hpath : (st.Toggle h i e).configPath = st.configPath := by
    unfold State.Toggle
    split
    · rfl
    · split <;> rfl
  have hcases : (st.Toggle h i e).hosts = st.hosts ∨
      (st.Toggle h i e).hosts = mapUpdate st.hosts h (fun hs =>
        { hs with checks := (modifyIdx hs.checks i.toNat
            (fun c => { c with enabled := e })) }) := by
    unfold State.Toggle
    split
    · exact Or.inl rfl
    · split
      · exact Or.inr rfl
      · exact Or.inl rfl
  refine ⟨hcfg, hpath, ?_, ?_⟩
  · intro k hx hget
    rcases hcases with hh | hh
    · exact ⟨hx, by rw [hh, hget], rfl, rfl, rfl, fun j _ => rfl, fun j => rfl⟩
    · rw [hh]
      unfold mapUpdate
      rw [List.get?_map, hget, Option.map_some']
      by_cases hxn : hx.name = h
      · rw [if_pos hxn]
        refine ⟨_, rfl, rfl, rfl, rfl, ?_, ?_⟩
        · intro j hj
          rcases hj with hj | hj
          · exact absurd hxn hj
          · exact modifyIdx_get?_ne _ _ _ _ hj
        · intro j
          by_cases hj : j = i.toNat
          · subst hj
            rw [modifyIdx_get?_eq]
            cases hx.checks.get? i.toNat <;> rfl
          · rw [modifyIdx_get?_ne _ _ _ _ hj]
      · rw [if_neg hxn]
        exact ⟨hx, rfl, rfl, rfl, rfl, fun j _ => rfl, fun j => rfl⟩
  · intro n a u disk hnh hfresh hp
    have hnot : ¬ (lookupHost (st.Toggle h i e).hosts n).isSome = true := by
      rw [hfresh]
      simp
    unfold State.AddHost
    rw [if_neg hnot]
    set st2 : State := { st.Toggle h i e with
      hosts := (st.Toggle h i e).hosts ++
        [{ name := n, address := a, hcurl := u,
           checks := [freshStatus CheckType.ping true "" 0] }]
      cfg := ⟨(st.Toggle h i e).cfg.hosts ++
        [{ name := n, address := a, healthchecksPingURL := u,
           checks := [{ type := CheckType.ping, enabled := true, url := "", expect := 0 }] }]⟩ }
      with hst2
    have hp2 : persistTarget st2.configPath := by
      rw [hst2]
      show persistTarget (st.Toggle h i e).configPath
      rw [hpath]
      exact hp
    refine ⟨_, save_disk_target st2 disk hp2, ?_⟩
    rw [cfgEnabledAt_map _ _
      (fun x => by cases lookupHost st2.hosts x.name <;> rfl)
      (fun x => by cases lookupHost st2.hosts x.name <;> rfl)]
    show cfgEnabledAt ⟨(st.Toggle h i e).cfg.hosts ++ _⟩ h i.toNat = _
    rw [cfgEnabledAt_append_ne _ _ _ (by simpa using hnh)]
    rw [show (⟨(st.Toggle h i e).cfg.hosts⟩ : Config) = (st.Toggle h i e).cfg from rfl, hcfg]

/-- Claim C10 witness: on the concrete store `c10state`, toggling the
single ping check off leaves the config document unchanged, and a
subsequent AddHost persists a document that still records the pre-toggle
enabled flag `true` for that check. -/
theorem claim_C10_witness :
    ((c10state.Toggle "srv" 0 false).cfg = c10state.cfg ∧
     ∃ doc, (State.AddHost true (c10state.Toggle "srv" 0 false) none ("db") ("db.lan") ("")).2.2
         = some doc ∧
       cfgEnabledAt doc "srv" 0 = cfgEnabledAt c10state.cfg "srv" 0) ∧
    cfgEnabledAt c10state.cfg "srv" 0 = some true :=
  ⟨⟨(claim_C10 c10state "srv" 0 false).1,
    (claim_C10 c10state "srv" 0 false).2.2.2 "db" "db.lan" "" none
      (by decide) rfl (by constructor <;> decide)⟩,
   rfl⟩

/-- Claim C4 (counterexample): for the base URL `https://hc-ping.com/abc`,
which lacks a trailing separator, the code builds `<base>/fail`, not the
`<base>fail` (append only `fail`) that the claim predicts for bases
lacking a trailing separator. -/
theorem claim_C4_counterexample :
    failNotifyURL ("https://hc-ping.com/abc") = "https://hc-ping.com/abc/fail" ∧
    failNotifyURL ("https://hc-ping.com/abc") ≠ "https://hc-ping.com/abc" ++ "fail" := by
  constructor
  · rfl
  · decide

/-- Claim C4 (amended): the failure notification issues a GET to
`<base>/fail` when the base is non-empty and lacks a trailing `/`, and
appends only `fail` (no separator) when the base is empty or already ends
with `/`; the success notification issues a GET to the base unchanged. -/
theorem claim_C4 (base : String) :
    (base ≠ "" → base.back ≠ '/' → failNotifyURL base = base ++ "/fail") ∧
    ((base = "" ∨ base.back = '/') → failNotifyURL base = base ++ "fail") ∧
    okNotifyURL base = base := by
  refine ⟨fun h1 h2 => ?_, fun h => ?_, rfl⟩
  · simp only [failNotifyURL, if_pos (And.intro h1 h2)]
  · have : ¬ (base ≠ "" ∧ base.back ≠ '/') := by
      rcases h with h | h
      · exact fun hc => hc.1 h
      · exact fun hc => hc.2 h
    simp only [failNotifyURL, if_neg this]

/-- Claim C4 witness: the amended statement evaluated at a base without
and a base with a trailing slash. -/
theorem claim_C4_witness :
    failNotifyURL ("https://hc-ping.com/abc") = "https://hc-ping.com/abc" ++ "/fail" ∧
    failNotifyURL ("https://hc-ping.com/abc/") = "https://hc-ping.com/abc/" ++ "fail" :=
  ⟨(claim_C4 ("https://hc-ping.com/abc")).1 (by decide) (by decide),
   (claim_C4 ("https://hc-ping.com/abc/")).2.1 (Or.inr (by decide))⟩

end Healthchecker
